import Mathlib

/-!
# obj-loader-demo: the OBJ / MTL loaders and the camera

A shallow embedding of `loadOBJ`, `loadMaterialsMTLLIB` (src/main.cpp) and of
`Camera::getViewMatrix`, `Camera::getProjectionMatrix` (src/camera.cpp), followed by
the properties proved about them.

Conventions of the embedding.

* A text line is represented after tokenisation: `ObjLine` / `MtlLine` carry the
  identifier of the line and its parsed fields. Lines whose numeric fields do not
  parse are outside the model (the C++ reads uninitialised variables there).
* Scalars (`float`) are never computed with by the loaders, only copied, so the
  scalar type is a parameter `F`.
* `std::unordered_map<std::string, MeshSegment>` is an association list with one
  entry per key; a key met for the first time is added at the end. The order in
  which C++ iterates over the map is unspecified; here it is the list order, and
  the properties below do not depend on it.
* Reading `vector[i]` out of bounds is undefined behaviour in C++; the scan then
  yields `none`.
* `int` counters are unbounded integers (a signed overflow needs more than
  2^31 / 3 face lines).
* The file system, the image decoder, `std::filesystem` and the allocator of
  OpenGL texture names are gathered in `World`. The allocator sees the names in
  use and the names it handed out before, so it may or may not hand out a released
  name again.
-/

namespace ObjLoader

/-! ## Data model (src/main.cpp, lines 29-41) -/

abbrev GLuint := Nat
abbrev GLenum := Nat

/-- A `glm::vec3`. -/
structure Vec3 (F : Type) where
  x : F
  y : F
  z : F
deriving DecidableEq, Repr

/-- A `glm::vec2`. -/
structure Vec2 (F : Type) where
  x : F
  y : F
deriving DecidableEq, Repr

/-- The `struct MeshSegment`, with its default member initialisers. -/
structure MeshSegment where
  name : String := ""
  diffuseTextureID : GLuint := 0
  vertexBufferStartIndex : Int := 0
  vertexBufferDuration : Int := 0
deriving DecidableEq, Repr

/-- The `struct Mesh`. -/
structure Mesh (F : Type) where
  meshSegments : List MeshSegment
  vertices : List F
deriving DecidableEq, Repr

/-! ## `std::unordered_map<std::string, MeshSegment>` -/

abbrev SegmentMap := List (String × MeshSegment)

namespace SegmentMap

/-- The entry stored under key `k`, if there is one. -/
def find (m : SegmentMap) (k : String) : Option MeshSegment :=
  match m with
  | [] => none
  | (k1, e) :: rest => if k1 = k then some e else find rest k

/-- The effect of `m[k]` followed by a write `g` through the returned reference:
`operator[]` inserts a value-initialised `MeshSegment` when `k` is absent. -/
def update (m : SegmentMap) (k : String) (g : MeshSegment → MeshSegment) : SegmentMap :=
  match m with
  | [] => [(k, g {})]
  | (k1, e) :: rest => if k1 = k then (k1, g e) :: rest else (k1, e) :: update rest k g

/-- The statement `m[k] = v`. -/
def assign (m : SegmentMap) (k : String) (v : MeshSegment) : SegmentMap :=
  update m k (fun _ => v)

/-- The keys of the map, in list order. -/
def keys (m : SegmentMap) : List String := m.map Prod.fst

/-- The values met by `for (const auto& entry : m)`. -/
def values (m : SegmentMap) : List MeshSegment := m.map Prod.snd

end SegmentMap

/-! ## OpenGL texture state and the outside world -/

def GL_REPEAT : GLenum := 0x2901
def GL_NEAREST : GLenum := 0x2600
def GL_LINEAR : GLenum := 0x2601
def GL_NEAREST_MIPMAP_LINEAR : GLenum := 0x2702
def GL_RGB : GLenum := 0x1907
def GL_RGBA : GLenum := 0x1908

/-- The four `glTexParameteri` targets used by the loader. -/
inductive TexParam where
  | GL_TEXTURE_WRAP_S
  | GL_TEXTURE_WRAP_T
  | GL_TEXTURE_MIN_FILTER
  | GL_TEXTURE_MAG_FILTER
deriving DecidableEq, Repr

/-- A texture object: its sampling parameters (with the OpenGL initial values) and
the image uploaded to it by `glTexImage2D`, as (format, pixels). -/
structure Texture (Img : Type) where
  wrapS : GLenum := GL_REPEAT
  wrapT : GLenum := GL_REPEAT
  minFilter : GLenum := GL_NEAREST_MIPMAP_LINEAR
  magFilter : GLenum := GL_LINEAR
  image : Option (GLenum × Img) := none
deriving DecidableEq, Repr

/-- The part of the OpenGL context the loaders touch: the texture objects in use,
by name, the name bound to `GL_TEXTURE_2D`, and the names `glGenTextures` has
handed out so far (most recent first). -/
structure GLState (Img : Type) where
  textures : List (GLuint × Texture Img) := []
  bound : GLuint := 0
  issued : List GLuint := []
deriving DecidableEq, Repr

/-- A line of a material file: its identifier and the token that follows. -/
inductive MtlLine where
  | newmtl (materialName : String)
  | map_Kd (diffuseMapPath : String)
  | other
deriving DecidableEq, Repr

/-- Everything the loaders obtain from outside the program. -/
structure World (Img : Type) where
  /-- The lines of the material file at a path; `none` when it cannot be opened. -/
  mtlFile : String → Option (List MtlLine)
  /-- Decoder `stbi_load` (vertical flip on); `none` is the null pointer. -/
  stbi_load : String → Option Img
  /-- Channel count reported by the decoder. -/
  channelCount : Img → Int
  /-- The name handed out by `glGenTextures`, given the names in use and the names
  handed out so far (most recent first). OpenGL promises a name that is not in
  use; whether a released name comes back is up to the implementation. -/
  genName : List GLuint → List GLuint → GLuint
  /-- Directory part of a path, `std::filesystem::path::parent_path`. -/
  parentPath : String → String
  /-- Concatenation of paths, `operator/` of `std::filesystem::path`. -/
  joinPath : String → String → String

namespace GLState

variable {Img : Type}

/-- Names of the texture objects in use. -/
def names (gl : GLState Img) : List GLuint := gl.textures.map Prod.fst

/-- Change the texture object named `n`, when there is one. -/
def modify (ts : List (GLuint × Texture Img)) (n : GLuint) (g : Texture Img → Texture Img) :
    List (GLuint × Texture Img) :=
  ts.map (fun p => if p.1 = n then (p.1, g p.2) else p)

/-- One call `glGenTextures(1, &id)`: returns the new name and the new state. -/
def glGenTextures (w : World Img) (gl : GLState Img) : GLuint × GLState Img :=
  let n := w.genName gl.names gl.issued
  (n, { gl with textures := (n, {}) :: gl.textures, issued := n :: gl.issued })

/-- The call `glBindTexture(GL_TEXTURE_2D, n)`. -/
def glBindTexture (gl : GLState Img) (n : GLuint) : GLState Img :=
  { gl with bound := n }

/-- The call `glTexParameteri(GL_TEXTURE_2D, p, v)`: acts on the bound texture. -/
def glTexParameteri (gl : GLState Img) (p : TexParam) (v : GLenum) : GLState Img :=
  { gl with textures := modify gl.textures gl.bound (fun t =>
      match p with
      | .GL_TEXTURE_WRAP_S => { t with wrapS := v }
      | .GL_TEXTURE_WRAP_T => { t with wrapT := v }
      | .GL_TEXTURE_MIN_FILTER => { t with minFilter := v }
      | .GL_TEXTURE_MAG_FILTER => { t with magFilter := v }) }

/-- The call `glTexImage2D(GL_TEXTURE_2D, 0, fmt, .., fmt, .., data)`: acts on the
bound texture. -/
def glTexImage2D (gl : GLState Img) (fmt : GLenum) (data : Img) : GLState Img :=
  { gl with textures := modify gl.textures gl.bound (fun t => { t with image := some (fmt, data) }) }

/-- The call `glDeleteTextures(1, &n)`: the object is released and a binding to it
reverts to zero. -/
def glDeleteTextures (gl : GLState Img) (n : GLuint) : GLState Img :=
  { gl with
    textures := gl.textures.filter (fun p => decide (p.1 ≠ n)),
    bound := if gl.bound = n then 0 else gl.bound }

end GLState

/-! ## `loadMaterialsMTLLIB` (src/main.cpp, lines 334-390) -/

/-- The local variables of `loadMaterialsMTLLIB`, and the OpenGL state. -/
structure MtlState (Img : Type) where
  currentMaterialKey : String := ""
  meshSegments : SegmentMap := []
  gl : GLState Img
deriving DecidableEq, Repr

/-- The body of the `while (std::getline(file, line))` loop of
`loadMaterialsMTLLIB`, for one line. -/
def mtlStep {Img : Type} (w : World Img) (s : MtlState Img) : MtlLine → MtlState Img
  | .newmtl materialName =>
      { s with
        meshSegments := s.meshSegments.assign materialName { name := materialName },
        currentMaterialKey := materialName }
  | .map_Kd diffuseMapPath =>
      if s.currentMaterialKey = "" then s
      else
        -- MeshSegment& currentMaterialSegment = meshSegments[currentMaterialKey];
        let segs := s.meshSegments.update s.currentMaterialKey id
        let (textureID, gl0) := GLState.glGenTextures w s.gl
        let gl1 := gl0.glBindTexture textureID
        let gl2 := gl1.glTexParameteri .GL_TEXTURE_WRAP_S GL_REPEAT
        let gl3 := gl2.glTexParameteri .GL_TEXTURE_WRAP_T GL_REPEAT
        let gl4 := gl3.glTexParameteri .GL_TEXTURE_MIN_FILTER GL_NEAREST
        let gl5 := gl4.glTexParameteri .GL_TEXTURE_MAG_FILTER GL_NEAREST
        match w.stbi_load diffuseMapPath with
        | some data =>
            let fmt := if w.channelCount data = 4 then GL_RGBA else GL_RGB
            { s with
              meshSegments := segs.update s.currentMaterialKey
                (fun e => { e with diffuseTextureID := textureID }),
              gl := gl5.glTexImage2D fmt data }
        | none =>
            { s with meshSegments := segs, gl := gl5.glDeleteTextures textureID }
  | .other => s

/-- The loop of `loadMaterialsMTLLIB` over the lines of an opened file. -/
def mtlScan {Img : Type} (w : World Img) (lines : List MtlLine) (s : MtlState Img) :
    MtlState Img :=
  lines.foldl (mtlStep w) s

/-- The function `loadMaterialsMTLLIB(path)`: the map it returns and the OpenGL
state it leaves. A file that cannot be opened gives the empty map. -/
def loadMaterialsMTLLIB {Img : Type} (w : World Img) (path : String) (gl : GLState Img) :
    SegmentMap × GLState Img :=
  match w.mtlFile path with
  | none => ([], gl)
  | some lines =>
      let s := mtlScan w lines { gl := gl }
      (s.meshSegments, s.gl)

/-! ## `loadOBJ` (src/main.cpp, lines 230-332) -/

/-- One corner `vIndex/tIndex/nIndex` of a face line. -/
structure Corner where
  vIndex : Int
  tIndex : Int
  nIndex : Int
deriving DecidableEq, Repr

/-- A line of a geometry file: its identifier and its parsed fields. -/
inductive ObjLine (F : Type) where
  | v (vertexPosition : Vec3 F)
  | vt (vertexUV : Vec2 F)
  | vn (vertexNormal : Vec3 F)
  | f (c0 c1 c2 : Corner)
  | mtllib (materialFileName : String)
  | usemtl (materialName : String)
  | other
deriving DecidableEq, Repr

/-- The read `xs[i]` of a `std::vector` with an `int` index: `none` when the index
is outside the vector. -/
def vecAt {α : Type} (xs : List α) (i : Int) : Option α :=
  if 0 ≤ i then xs[i.toNat]? else none

/-- The local variables of `loadOBJ`, the OpenGL state, and a trace of the paths
`loadMaterialsMTLLIB` was called with (not a program variable). -/
structure LoadState (F Img : Type) where
  vertexPositions : List (Vec3 F) := []
  vertexUVs : List (Vec2 F) := []
  vertexNormals : List (Vec3 F) := []
  loadedMaterial : Bool := false
  facesAdded : Int := 0
  facesAddedSinceLastMaterial : Int := 0
  lastMaterialName : String := ""
  meshSegments : SegmentMap := []
  vertices : List F := []
  gl : GLState Img
  loaderCalls : List String := []
deriving DecidableEq, Repr

/-- One iteration of the `for (int i = 0; i < 3; ++i)` loop of a face line: the
three stream reads and the eight `push_back` onto `vertices`. -/
def pushCorner {F Img : Type} (s : LoadState F Img) (vertices : List F) (c : Corner) :
    Option (List F) :=
  match vecAt s.vertexPositions (c.vIndex - 1) with
  | none => none
  | some vertexPos =>
    match vecAt s.vertexUVs (c.tIndex - 1) with
    | none => none
    | some vertexUV =>
      match vecAt s.vertexNormals (c.nIndex - 1) with
      | none => none
      | some vertexNormal =>
        some (vertices ++ [vertexPos.x, vertexPos.y, vertexPos.z,
                           vertexUV.x, vertexUV.y,
                           vertexNormal.x, vertexNormal.y, vertexNormal.z])

/-- The body of the `while (std::getline(file, line))` loop of `loadOBJ`, for one
line; `path` is the argument of `loadOBJ`. -/
def objStep {F Img : Type} (w : World Img) (path : String) (s : LoadState F Img) :
    ObjLine F → Option (LoadState F Img)
  | .v vertexPosition =>
      some { s with vertexPositions := s.vertexPositions ++ [vertexPosition] }
  | .vt vertexUV =>
      some { s with vertexUVs := s.vertexUVs ++ [vertexUV] }
  | .vn vertexNormal =>
      some { s with vertexNormals := s.vertexNormals ++ [vertexNormal] }
  | .f c0 c1 c2 =>
      match pushCorner s s.vertices c0 with
      | none => none
      | some vs0 =>
        match pushCorner s vs0 c1 with
        | none => none
        | some vs1 =>
          match pushCorner s vs1 c2 with
          | none => none
          | some vs2 => some { s with vertices := vs2, facesAdded := s.facesAdded + 3 }
  | .mtllib materialFileName =>
      if s.loadedMaterial then some s
      else
        let materialFilePath := w.joinPath (w.parentPath path) materialFileName
        let r := loadMaterialsMTLLIB w materialFilePath s.gl
        some { s with
          meshSegments := r.1,
          gl := r.2,
          loadedMaterial := true,
          loaderCalls := s.loaderCalls ++ [materialFilePath] }
  | .usemtl materialName =>
      let m1 := s.meshSegments.update materialName
        (fun e => { e with vertexBufferStartIndex := s.facesAdded })
      let m2 :=
        if s.lastMaterialName = "" then m1
        else m1.update s.lastMaterialName
          (fun e => { e with
            vertexBufferDuration := s.facesAdded - s.facesAddedSinceLastMaterial })
      some { s with
        meshSegments := m2,
        facesAddedSinceLastMaterial := s.facesAdded,
        lastMaterialName := materialName }
  | .other => some s

/-- The loop of `loadOBJ` over the lines of an opened file, from state `s`. -/
def objScan {F Img : Type} (w : World Img) (path : String) :
    List (ObjLine F) → LoadState F Img → Option (LoadState F Img)
  | [], s => some s
  | l :: rest, s =>
      match objStep w path s l with
      | none => none
      | some s1 => objScan w path rest s1

/-- The state in which `loadOBJ` leaves its loop: `file` is the content of the
geometry file, `none` when it cannot be opened. -/
def loadOBJ_state {F Img : Type} (w : World Img) (path : String)
    (file : Option (List (ObjLine F))) (gl : GLState Img) : Option (LoadState F Img) :=
  match file with
  | none => some { gl := gl }
  | some lines => objScan w path lines { gl := gl }

/-- The function `loadOBJ(path)`: the mesh it returns. -/
def loadOBJ {F Img : Type} (w : World Img) (path : String)
    (file : Option (List (ObjLine F))) (gl : GLState Img) : Option (Mesh F) :=
  (loadOBJ_state w path file gl).map
    (fun s => { meshSegments := s.meshSegments.values, vertices := s.vertices })

/-! ## Camera (src/camera.h, src/camera.cpp) -/

/-- The floating-point functions of libm and glm the camera calls, taken as
functions of their arguments; `M` is `glm::mat4`. -/
structure FloatOps (F M : Type) where
  cos : F → F
  sin : F → F
  radians : F → F
  mul : F → F → F
  normalize : Vec3 F → Vec3 F
  add : Vec3 F → Vec3 F → Vec3 F
  lookAt : Vec3 F → Vec3 F → Vec3 F → M
  perspective : F → F → F → F → M

/-- The data members of `class Camera`. -/
structure Camera (F : Type) where
  position : Vec3 F
  front : Vec3 F
  up : Vec3 F
  yaw : F
  pitch : F
  nearPlane : F
  farPlane : F
  FOV : F
  viewportAspectRatio : F
deriving DecidableEq, Repr

/-- The method `Camera::getViewMatrix`: the matrix returned and the camera after
the call (the method assigns `front`). -/
def Camera.getViewMatrix {F M : Type} (ops : FloatOps F M) (c : Camera F) : M × Camera F :=
  let direction : Vec3 F :=
    { x := ops.mul (ops.cos (ops.radians c.yaw)) (ops.cos (ops.radians c.pitch)),
      y := ops.sin (ops.radians c.pitch),
      z := ops.mul (ops.sin (ops.radians c.yaw)) (ops.cos (ops.radians c.pitch)) }
  let c1 := { c with front := ops.normalize direction }
  (ops.lookAt c1.position (ops.add c1.position c1.front) c1.up, c1)

/-- The method `Camera::getProjectionMatrix`: the matrix returned and the camera
after the call (the method assigns nothing). -/
def Camera.getProjectionMatrix {F M : Type} (ops : FloatOps F M) (c : Camera F) :
    M × Camera F :=
  (ops.perspective (ops.radians c.FOV) c.viewportAspectRatio c.nearPlane c.farPlane, c)

/-! ## Vocabulary of the properties -/

/-- Number of face lines of a geometry file. -/
def countF {F : Type} : List (ObjLine F) → Nat
  | [] => 0
  | .f _ _ _ :: rest => countF rest + 1
  | _ :: rest => countF rest

/-- The material names of the `usemtl` lines, in file order. -/
def usedNames {F : Type} : List (ObjLine F) → List String
  | [] => []
  | .usemtl n :: rest => n :: usedNames rest
  | _ :: rest => usedNames rest

/-- The positions given by the `v` lines, in file order. -/
def positionsOf {F : Type} : List (ObjLine F) → List (Vec3 F)
  | [] => []
  | .v p :: rest => p :: positionsOf rest
  | _ :: rest => positionsOf rest

/-- The texture coordinates given by the `vt` lines, in file order. -/
def uvsOf {F : Type} : List (ObjLine F) → List (Vec2 F)
  | [] => []
  | .vt t :: rest => t :: uvsOf rest
  | _ :: rest => uvsOf rest

/-- The normals given by the `vn` lines, in file order. -/
def normalsOf {F : Type} : List (ObjLine F) → List (Vec3 F)
  | [] => []
  | .vn n :: rest => n :: normalsOf rest
  | _ :: rest => normalsOf rest

/-- Whether a line is a `usemtl` line. -/
def ObjLine.isUsemtl {F : Type} : ObjLine F → Bool
  | .usemtl _ => true
  | _ => false

/-- Whether a line is an `mtllib` line. -/
def ObjLine.isMtllib {F : Type} : ObjLine F → Bool
  | .mtllib _ => true
  | _ => false

/-- A corner whose three indices lie between 1 and the lengths of the streams. -/
def Corner.inRange (np nt nn : Nat) (c : Corner) : Prop :=
  (1 ≤ c.vIndex ∧ c.vIndex ≤ np) ∧ (1 ≤ c.tIndex ∧ c.tIndex ≤ nt) ∧
    (1 ≤ c.nIndex ∧ c.nIndex ≤ nn)

instance (np nt nn : Nat) (c : Corner) : Decidable (c.inRange np nt nn) := by
  unfold Corner.inRange; infer_instance

/-- Every face line refers to stream elements appended by earlier lines, the
streams holding `np`, `nt`, `nn` elements before the first line. -/
def WellFormedFrom {F : Type} : Nat → Nat → Nat → List (ObjLine F) → Prop
  | _, _, _, [] => True
  | np, nt, nn, .v _ :: rest => WellFormedFrom (np + 1) nt nn rest
  | np, nt, nn, .vt _ :: rest => WellFormedFrom np (nt + 1) nn rest
  | np, nt, nn, .vn _ :: rest => WellFormedFrom np nt (nn + 1) rest
  | np, nt, nn, .f c0 c1 c2 :: rest =>
      (c0.inRange np nt nn ∧ c1.inRange np nt nn ∧ c2.inRange np nt nn) ∧
        WellFormedFrom np nt nn rest
  | np, nt, nn, .mtllib _ :: rest => WellFormedFrom np nt nn rest
  | np, nt, nn, .usemtl _ :: rest => WellFormedFrom np nt nn rest
  | np, nt, nn, .other :: rest => WellFormedFrom np nt nn rest

instance decWellFormedFrom {F : Type} :
    ∀ (np nt nn : Nat) (ls : List (ObjLine F)), Decidable (WellFormedFrom np nt nn ls)
  | _, _, _, [] => isTrue trivial
  | np, nt, nn, .v _ :: rest => decWellFormedFrom (np + 1) nt nn rest
  | np, nt, nn, .vt _ :: rest => decWellFormedFrom np (nt + 1) nn rest
  | np, nt, nn, .vn _ :: rest => decWellFormedFrom np nt (nn + 1) rest
  | np, nt, nn, .f c0 c1 c2 :: rest =>
      have := decWellFormedFrom np nt nn rest
      inferInstanceAs (Decidable ((c0.inRange np nt nn ∧ c1.inRange np nt nn ∧
        c2.inRange np nt nn) ∧ WellFormedFrom np nt nn rest))
  | np, nt, nn, .mtllib _ :: rest => decWellFormedFrom np nt nn rest
  | np, nt, nn, .usemtl _ :: rest => decWellFormedFrom np nt nn rest
  | np, nt, nn, .other :: rest => decWellFormedFrom np nt nn rest

/-- A well-formed geometry file: the streams are empty before its first line. -/
abbrev WellFormed {F : Type} (lines : List (ObjLine F)) : Prop := WellFormedFrom 0 0 0 lines

/-- The eight scalars of one expanded vertex. -/
def expanded {F : Type} (p : Vec3 F) (t : Vec2 F) (n : Vec3 F) : List F :=
  [p.x, p.y, p.z, t.x, t.y, n.x, n.y, n.z]

/-- Two segments whose ranges `[start, start + duration)` have no common index. -/
def MeshSegment.Disjoint (a b : MeshSegment) : Prop :=
  ¬ ∃ i : Int, (a.vertexBufferStartIndex ≤ i ∧ i < a.vertexBufferStartIndex + a.vertexBufferDuration) ∧
    (b.vertexBufferStartIndex ≤ i ∧ i < b.vertexBufferStartIndex + b.vertexBufferDuration)

/-- Every entry of a map has start offset 0 and duration 0. -/
def SegmentMap.Fresh (m : SegmentMap) : Prop :=
  ∀ k e, SegmentMap.find m k = some e →
    e.vertexBufferStartIndex = 0 ∧ e.vertexBufferDuration = 0

/-- With `U` the material names used so far: an entry whose name was never used
has duration 0, and the open material, if any, is a used name. -/
def UnusedClosed {F Img : Type} (U : List String) (s : LoadState F Img) : Prop :=
  (∀ k e, s.meshSegments.find k = some e → k ∉ U → e.vertexBufferDuration = 0) ∧
  (s.lastMaterialName = "" ∨ s.lastMaterialName ∈ U)

/-- Every range but the one of the open material ends at or before the face
counter; the open material starts at or before the counter value recorded for it;
the entry of the empty name has an empty range. -/
def ClosedBounded {F Img : Type} (s : LoadState F Img) : Prop :=
  0 ≤ s.facesAddedSinceLastMaterial ∧
  s.facesAddedSinceLastMaterial ≤ s.facesAdded ∧
  (∀ k e, s.meshSegments.find k = some e → k ≠ s.lastMaterialName →
    e.vertexBufferStartIndex + e.vertexBufferDuration ≤ s.facesAdded) ∧
  (∀ e, s.meshSegments.find s.lastMaterialName = some e →
    e.vertexBufferStartIndex ≤ s.facesAddedSinceLastMaterial) ∧
  (∀ e, s.meshSegments.find "" = some e → e.vertexBufferDuration ≤ 0)

/-- The entry of the open material, if there is one, has duration 0. -/
def OpenEmpty {F Img : Type} (s : LoadState F Img) : Prop :=
  ∀ e, s.meshSegments.find s.lastMaterialName = some e → e.vertexBufferDuration = 0

/-- The material name of the last `usemtl` line of a file, `d` when there is none:
the value of `lastMaterialName` at the end of the scan. -/
def lastUsed {F : Type} : List (ObjLine F) → String → String
  | [], d => d
  | .usemtl n :: rest, _ => lastUsed rest n
  | _ :: rest, d => lastUsed rest d

/-- An arithmetic form of disjointness: one range is empty, or one ends where the
other starts or before. -/
def MeshSegment.Apart (a b : MeshSegment) : Prop :=
  a.vertexBufferDuration ≤ 0 ∨ b.vertexBufferDuration ≤ 0 ∨
    a.vertexBufferStartIndex + a.vertexBufferDuration ≤ b.vertexBufferStartIndex ∨
    b.vertexBufferStartIndex + b.vertexBufferDuration ≤ a.vertexBufferStartIndex

/-- The invariant behind the disjointness of ranges: closed segments with a
non-empty range end at or before the counter value recorded for the open material,
the open material starts at that value (or the map was just replaced by a
catalog, all of whose ranges are empty), ranges under different names are apart,
and the entry of the empty name has an empty range. -/
def Tracked {F Img : Type} (s : LoadState F Img) : Prop :=
  0 ≤ s.facesAddedSinceLastMaterial ∧
  s.facesAddedSinceLastMaterial ≤ s.facesAdded ∧
  (∀ k e, s.meshSegments.find k = some e → k ≠ s.lastMaterialName →
    0 < e.vertexBufferDuration →
    e.vertexBufferStartIndex + e.vertexBufferDuration ≤ s.facesAddedSinceLastMaterial) ∧
  (s.lastMaterialName = "" ∨
    (∃ e, s.meshSegments.find s.lastMaterialName = some e ∧
      e.vertexBufferStartIndex = s.facesAddedSinceLastMaterial) ∨
    (∀ k e, s.meshSegments.find k = some e →
      e.vertexBufferDuration ≤ 0 ∧
      e.vertexBufferStartIndex ≤ s.facesAddedSinceLastMaterial)) ∧
  (∀ k1 k2 e1 e2, k1 ≠ k2 → s.meshSegments.find k1 = some e1 →
    s.meshSegments.find k2 = some e2 → e1.Apart e2) ∧
  (∀ e, s.meshSegments.find "" = some e → e.vertexBufferDuration ≤ 0)

/-- A material file: `wall` with a decodable texture, `floor` with a texture that
does not decode, then `sky` with a decodable one. -/
def sampleMtl : List MtlLine :=
  [.map_Kd "stray.png", .newmtl "wall", .map_Kd "wall.png", .newmtl "floor",
   .map_Kd "missing.png", .other, .newmtl "sky", .map_Kd "sky.png"]

/-- A world with the one material file `models/a.mtl` and two decodable images
(an image is represented by its channel count); texture names count upwards, a
released name is not handed out again. -/
def sampleWorld : World Nat where
  mtlFile := fun p => if p = "models/a.mtl" then some sampleMtl else none
  stbi_load := fun p =>
    if p = "wall.png" then some 4 else if p = "sky.png" then some 3 else none
  channelCount := fun img => img
  genName := fun used issued => max (used.foldr max 0) issued.length + 1
  parentPath := fun _ => "models"
  joinPath := fun a b => a ++ "/" ++ b

/-- The corner `i/i/i`. -/
def corner (i : Int) : Corner := { vIndex := i, tIndex := i, nIndex := i }

/-- The scenario file of the specification: three positions, three texture
coordinates, three normals, `usemtl A`, and one face. -/
def scenarioFile : List (ObjLine Int) :=
  [.v ⟨0, 0, 0⟩, .v ⟨1, 0, 0⟩, .v ⟨0, 1, 0⟩,
   .vt ⟨0, 0⟩, .vt ⟨1, 0⟩, .vt ⟨0, 1⟩,
   .vn ⟨0, 0, 1⟩, .vn ⟨0, 0, 1⟩, .vn ⟨0, 0, 1⟩,
   .usemtl "A",
   .f (corner 1) (corner 2) (corner 3)]

/-- One position, one texture coordinate and one normal. -/
def oneVertex : List (ObjLine Int) :=
  [.v ⟨0, 0, 0⟩, .vt ⟨0, 0⟩, .vn ⟨0, 0, 1⟩]

/-- A face over the first element of each stream. -/
def face1 : ObjLine Int := .f (corner 1) (corner 1) (corner 1)

/-- Material `A` is used, then `B`, then `A` again. -/
def reuseFile : List (ObjLine Int) :=
  oneVertex ++ [.usemtl "A", face1, face1, .usemtl "B", face1, .usemtl "A"]

/-- A file that reuses a name and loads a material library after a `usemtl`. -/
def mixedFile : List (ObjLine Int) :=
  oneVertex ++ [.usemtl "A", face1, face1, .usemtl "B", face1, .mtllib "a.mtl",
    .usemtl "A", face1, .usemtl "C", face1]

/-- A file with three `mtllib` lines. -/
def threeLibs : List (ObjLine Int) :=
  oneVertex ++ [.usemtl "wall", face1, .mtllib "a.mtl", .usemtl "floor", face1,
    .mtllib "b.mtl", face1, .usemtl "wall", .mtllib "c.mtl", face1]

/-- The file `threeLibs` without its second `mtllib` line. -/
def twoLibs : List (ObjLine Int) :=
  oneVertex ++ [.usemtl "wall", face1, .mtllib "a.mtl", .usemtl "floor", face1,
    face1, .usemtl "wall", .mtllib "c.mtl", face1]

/-- The lines of `threeLibs` before its first `mtllib` line. -/
def libsHead : List (ObjLine Int) := oneVertex ++ [.usemtl "wall", face1]

/-- The lines of `threeLibs` between its first and its second `mtllib` line. -/
def libsMiddle : List (ObjLine Int) := [.usemtl "floor", face1]

/-- The lines of `threeLibs` after its second `mtllib` line. -/
def libsTail : List (ObjLine Int) := [face1, .usemtl "wall", .mtllib "c.mtl", face1]

/-- Material `A` over one face, then the line `usemtl B`. -/
def twoMaterials : List (ObjLine Int) :=
  (oneVertex ++ [.usemtl "A", face1]) ++ [ObjLine.usemtl "B"]

/-- Material `A` is used, then `B`, then `A` again, then `C`. -/
def reuseClosedFile : List (ObjLine Int) :=
  oneVertex ++ [.usemtl "A", face1, .usemtl "B", face1, .usemtl "A", face1, .usemtl "C"]

/-! ## Lemmas on the segment map -/

namespace SegmentMap

theorem find_update (m : SegmentMap) (k0 k : String) (g : MeshSegment → MeshSegment) :
    find (update m k0 g) k
      = if k0 = k then some (g ((find m k0).getD {})) else find m k := by
  induction m with
  | nil => simp [update, find]
  | cons p rest ih =>
    obtain ⟨k1, e⟩ := p
    by_cases h1 : k1 = k0
    · subst h1
      by_cases h : k1 = k <;> simp [update, find, h]
    · by_cases h : k0 = k
      · subst h
        simp [update, find, h1, ih]
      · simp [update, find, h1, ih, h]

theorem mem_keys_update (m : SegmentMap) (k0 k : String) (g : MeshSegment → MeshSegment) :
    k ∈ keys (update m k0 g) ↔ k = k0 ∨ k ∈ keys m := by
  induction m with
  | nil => simp [update, keys]
  | cons p rest ih =>
    obtain ⟨k1, e⟩ := p
    by_cases h1 : k1 = k0
    · subst h1
      simp [update, keys]
    · have ih1 : k ∈ List.map Prod.fst (update rest k0 g) ↔ k = k0 ∨ k ∈ List.map Prod.fst rest := ih
      simp only [update, h1, if_false, keys, List.map_cons, List.mem_cons, ih1]
      tauto

theorem keys_update_nodup (m : SegmentMap) (k0 : String) (g : MeshSegment → MeshSegment)
    (h : (keys m).Nodup) : (keys (update m k0 g)).Nodup := by
  induction m with
  | nil => simp [update, keys]
  | cons p rest ih =>
    obtain ⟨k1, e⟩ := p
    have hn : k1 ∉ keys rest ∧ (keys rest).Nodup := by
      simpa [keys] using h
    by_cases h1 : k1 = k0
    · subst h1
      simpa [update, keys] using h
    · have hk : k1 ∉ keys (update rest k0 g) := by
        rw [mem_keys_update]
        rintro (h2 | h2)
        · exact h1 h2
        · exact hn.1 h2
      have := ih hn.2
      simp only [update, h1, if_false]
      exact List.nodup_cons.mpr ⟨hk, this⟩

theorem mem_of_find (m : SegmentMap) (k : String) (e : MeshSegment)
    (h : find m k = some e) : (k, e) ∈ m := by
  induction m with
  | nil => simp [find] at h
  | cons p rest ih =>
    obtain ⟨k1, e1⟩ := p
    by_cases h1 : k1 = k
    · subst h1
      simp [find] at h
      simp [h]
    · simp [find, h1] at h
      exact List.mem_cons_of_mem _ (ih h)

theorem find_of_mem (m : SegmentMap) (k : String) (e : MeshSegment)
    (hn : (keys m).Nodup) (h : (k, e) ∈ m) : find m k = some e := by
  induction m with
  | nil => simp at h
  | cons p rest ih =>
    obtain ⟨k1, e1⟩ := p
    have hn1 : k1 ∉ keys rest ∧ (keys rest).Nodup := by
      simpa [keys] using hn
    rcases List.mem_cons.mp h with h | h
    · cases h
      simp [find]
    · have hk : k ∈ keys rest := List.mem_map.mpr ⟨(k, e), h, rfl⟩
      have hne : k1 ≠ k := fun hh => hn1.1 (hh ▸ hk)
      simp [find, hne, ih hn1.2 h]

/-- A relation that holds between the entries found under any two different keys
holds pairwise along the list of values. -/
theorem pairwise_values (m : SegmentMap) (R : MeshSegment → MeshSegment → Prop)
    (hn : (keys m).Nodup)
    (h : ∀ k1 k2 e1 e2, k1 ≠ k2 → find m k1 = some e1 → find m k2 = some e2 → R e1 e2) :
    (values m).Pairwise R := by
  induction m with
  | nil => simp [values]
  | cons p rest ih =>
    obtain ⟨k1, e1⟩ := p
    have hn1 : k1 ∉ keys rest ∧ (keys rest).Nodup := by
      simpa [keys] using hn
    have hfind : ∀ k e, find rest k = some e → find ((k1, e1) :: rest) k = some e := by
      intro k e hf
      have hk : k ∈ keys rest := List.mem_map.mpr ⟨(k, e), mem_of_find _ _ _ hf, rfl⟩
      have hne : k1 ≠ k := fun hh => hn1.1 (hh ▸ hk)
      simp [find, hne, hf]
    show List.Pairwise R (e1 :: values rest)
    refine List.Pairwise.cons ?_ (ih hn1.2 ?_)
    · intro e2 he2
      obtain ⟨⟨k2, e2x⟩, hmem, rfl⟩ := List.mem_map.mp he2
      have hk : k2 ∈ keys rest := List.mem_map.mpr ⟨(k2, e2x), hmem, rfl⟩
      have hne : k1 ≠ k2 := fun hh => hn1.1 (hh ▸ hk)
      exact h k1 k2 e1 e2x hne (by simp [find])
        (hfind _ _ (find_of_mem _ _ _ hn1.2 hmem))
    · intro a b ea eb hab ha hb
      exact h a b ea eb hab (hfind _ _ ha) (hfind _ _ hb)

theorem mem_values_iff (m : SegmentMap) (hn : (keys m).Nodup) (e : MeshSegment) :
    e ∈ values m ↔ ∃ k, find m k = some e := by
  constructor
  · intro he
    obtain ⟨⟨k, e1⟩, hmem, rfl⟩ := List.mem_map.mp he
    exact ⟨k, find_of_mem _ _ _ hn hmem⟩
  · rintro ⟨k, hk⟩
    exact List.mem_map.mpr ⟨(k, e), mem_of_find _ _ _ hk, rfl⟩

end SegmentMap

/-! ## Lemmas on the scan of a geometry file -/

section ScanLemmas

variable {F Img : Type}

theorem objScan_append (w : World Img) (path : String) (l1 l2 : List (ObjLine F))
    (s : LoadState F Img) :
    objScan w path (l1 ++ l2) s = (objScan w path l1 s).bind (objScan w path l2) := by
  induction l1 generalizing s with
  | nil => simp [objScan]
  | cons l rest ih =>
    simp only [List.cons_append, objScan]
    cases objStep w path s l with
    | none => simp
    | some s1 => simpa using ih s1

theorem objScan_append_some (w : World Img) (path : String) (l1 l2 : List (ObjLine F))
    (s s2 : LoadState F Img) (h : objScan w path (l1 ++ l2) s = some s2) :
    ∃ s1, objScan w path l1 s = some s1 ∧ objScan w path l2 s1 = some s2 := by
  rw [objScan_append] at h
  cases h1 : objScan w path l1 s with
  | none => simp [h1] at h
  | some s1 => exact ⟨s1, rfl, by simpa [h1] using h⟩

theorem vecAt_some {α : Type} (xs : List α) (i : Int) (h : 1 ≤ i ∧ i ≤ xs.length) :
    ∃ a, vecAt xs (i - 1) = some a := by
  have h0 : (0 : Int) ≤ i - 1 := by omega
  have hlt : (i - 1).toNat < xs.length := by omega
  exact ⟨xs[(i - 1).toNat], by simp [vecAt, h0, List.getElem?_eq_getElem hlt]⟩

theorem pushCorner_some (s : LoadState F Img) (vs : List F) (c : Corner)
    (h : c.inRange s.vertexPositions.length s.vertexUVs.length s.vertexNormals.length) :
    ∃ p t n, vecAt s.vertexPositions (c.vIndex - 1) = some p ∧
      vecAt s.vertexUVs (c.tIndex - 1) = some t ∧
      vecAt s.vertexNormals (c.nIndex - 1) = some n ∧
      pushCorner s vs c = some (vs ++ expanded p t n) := by
  obtain ⟨p, hp⟩ := vecAt_some s.vertexPositions c.vIndex h.1
  obtain ⟨t, ht⟩ := vecAt_some s.vertexUVs c.tIndex h.2.1
  obtain ⟨n, hn⟩ := vecAt_some s.vertexNormals c.nIndex h.2.2
  exact ⟨p, t, n, hp, ht, hn, by simp [pushCorner, hp, ht, hn, expanded]⟩

theorem pushCorner_length (s : LoadState F Img) (vs vs1 : List F) (c : Corner)
    (h : pushCorner s vs c = some vs1) : ∃ ext, vs1 = vs ++ ext ∧ ext.length = 8 := by
  unfold pushCorner at h
  cases hp : vecAt s.vertexPositions (c.vIndex - 1) with
  | none => simp [hp] at h
  | some p =>
    cases ht : vecAt s.vertexUVs (c.tIndex - 1) with
    | none => simp [hp, ht] at h
    | some t =>
      cases hn : vecAt s.vertexNormals (c.nIndex - 1) with
      | none => simp [hp, ht, hn] at h
      | some n =>
        simp only [hp, ht, hn, Option.some.injEq] at h
        exact ⟨_, h.symm, rfl⟩

theorem objStep_f_some (w : World Img) (path : String) (s : LoadState F Img)
    (c0 c1 c2 : Corner)
    (h0 : c0.inRange s.vertexPositions.length s.vertexUVs.length s.vertexNormals.length)
    (h1 : c1.inRange s.vertexPositions.length s.vertexUVs.length s.vertexNormals.length)
    (h2 : c2.inRange s.vertexPositions.length s.vertexUVs.length s.vertexNormals.length) :
    ∃ p0 t0 n0 p1 t1 n1 p2 t2 n2,
      (vecAt s.vertexPositions (c0.vIndex - 1) = some p0 ∧
        vecAt s.vertexUVs (c0.tIndex - 1) = some t0 ∧
        vecAt s.vertexNormals (c0.nIndex - 1) = some n0) ∧
      (vecAt s.vertexPositions (c1.vIndex - 1) = some p1 ∧
        vecAt s.vertexUVs (c1.tIndex - 1) = some t1 ∧
        vecAt s.vertexNormals (c1.nIndex - 1) = some n1) ∧
      (vecAt s.vertexPositions (c2.vIndex - 1) = some p2 ∧
        vecAt s.vertexUVs (c2.tIndex - 1) = some t2 ∧
        vecAt s.vertexNormals (c2.nIndex - 1) = some n2) ∧
      objStep w path s (.f c0 c1 c2) = some { s with
        vertices := s.vertices ++ (expanded p0 t0 n0 ++ expanded p1 t1 n1 ++ expanded p2 t2 n2),
        facesAdded := s.facesAdded + 3 } := by
  obtain ⟨p0, t0, n0, hp0, ht0, hn0, e0⟩ := pushCorner_some s s.vertices c0 h0
  obtain ⟨p1, t1, n1, hp1, ht1, hn1, e1⟩ :=
    pushCorner_some s (s.vertices ++ expanded p0 t0 n0) c1 h1
  obtain ⟨p2, t2, n2, hp2, ht2, hn2, e2⟩ :=
    pushCorner_some s (s.vertices ++ expanded p0 t0 n0 ++ expanded p1 t1 n1) c2 h2
  refine ⟨p0, t0, n0, p1, t1, n1, p2, t2, n2, ⟨hp0, ht0, hn0⟩, ⟨hp1, ht1, hn1⟩,
    ⟨hp2, ht2, hn2⟩, ?_⟩
  simp only [objStep, e0, e1, e2]
  simp only [List.append_assoc]

/-- What one line does to the streams, the vertex buffer and the face counter. -/
theorem objStep_effect (w : World Img) (path : String) (s s1 : LoadState F Img)
    (l : ObjLine F) (h : objStep w path s l = some s1) :
    s1.vertexPositions = s.vertexPositions ++ positionsOf [l] ∧
    s1.vertexUVs = s.vertexUVs ++ uvsOf [l] ∧
    s1.vertexNormals = s.vertexNormals ++ normalsOf [l] ∧
    s1.facesAdded = s.facesAdded + 3 * (countF [l] : Int) ∧
    ∃ ext, s1.vertices = s.vertices ++ ext ∧ ext.length = 24 * countF [l] := by
  cases l with
  | v p => simp [objStep] at h; subst h; simp [positionsOf, uvsOf, normalsOf, countF]
  | vt t => simp [objStep] at h; subst h; simp [positionsOf, uvsOf, normalsOf, countF]
  | vn n => simp [objStep] at h; subst h; simp [positionsOf, uvsOf, normalsOf, countF]
  | other => simp [objStep] at h; subst h; simp [positionsOf, uvsOf, normalsOf, countF]
  | mtllib n =>
    by_cases hl : s.loadedMaterial = true
    · simp [objStep, hl] at h; subst h; simp [positionsOf, uvsOf, normalsOf, countF]
    · simp [objStep, hl] at h; subst h; simp [positionsOf, uvsOf, normalsOf, countF]
  | usemtl n => simp [objStep] at h; subst h; simp [positionsOf, uvsOf, normalsOf, countF]
  | f c0 c1 c2 =>
    simp only [objStep] at h
    cases e0 : pushCorner s s.vertices c0 with
    | none => simp [e0] at h
    | some vs0 =>
      cases e1 : pushCorner s vs0 c1 with
      | none => simp [e0, e1] at h
      | some vs1 =>
        cases e2 : pushCorner s vs1 c2 with
        | none => simp [e0, e1, e2] at h
        | some vs2 =>
          simp only [e0, e1, e2, Option.some.injEq] at h
          subst h
          obtain ⟨x0, rfl, hx0⟩ := pushCorner_length _ _ _ _ e0
          obtain ⟨x1, rfl, hx1⟩ := pushCorner_length _ _ _ _ e1
          obtain ⟨x2, rfl, hx2⟩ := pushCorner_length _ _ _ _ e2
          refine ⟨by simp [positionsOf], by simp [uvsOf], by simp [normalsOf],
            by simp [countF], x0 ++ x1 ++ x2, by simp [List.append_assoc], ?_⟩
          simp [countF, hx0, hx1, hx2]

theorem positionsOf_cons (l : ObjLine F) (rest : List (ObjLine F)) :
    positionsOf (l :: rest) = positionsOf [l] ++ positionsOf rest := by
  cases l <;> simp [positionsOf]

theorem uvsOf_cons (l : ObjLine F) (rest : List (ObjLine F)) :
    uvsOf (l :: rest) = uvsOf [l] ++ uvsOf rest := by
  cases l <;> simp [uvsOf]

theorem normalsOf_cons (l : ObjLine F) (rest : List (ObjLine F)) :
    normalsOf (l :: rest) = normalsOf [l] ++ normalsOf rest := by
  cases l <;> simp [normalsOf]

theorem countF_cons (l : ObjLine F) (rest : List (ObjLine F)) :
    countF (l :: rest) = countF [l] + countF rest := by
  cases l <;> simp [countF, Nat.add_comm]

theorem countF_append (l1 l2 : List (ObjLine F)) :
    countF (l1 ++ l2) = countF l1 + countF l2 := by
  induction l1 with
  | nil => simp [countF]
  | cons l rest ih =>
    rw [List.cons_append, countF_cons, ih, countF_cons l rest]
    omega

/-- What a scan does to the streams, the vertex buffer and the face counter. -/
theorem objScan_effect (w : World Img) (path : String) (lines : List (ObjLine F))
    (s s1 : LoadState F Img) (h : objScan w path lines s = some s1) :
    s1.vertexPositions = s.vertexPositions ++ positionsOf lines ∧
    s1.vertexUVs = s.vertexUVs ++ uvsOf lines ∧
    s1.vertexNormals = s.vertexNormals ++ normalsOf lines ∧
    s1.facesAdded = s.facesAdded + 3 * (countF lines : Int) ∧
    ∃ ext, s1.vertices = s.vertices ++ ext ∧ ext.length = 24 * countF lines := by
  induction lines generalizing s with
  | nil =>
    simp [objScan] at h
    subst h
    simp [positionsOf, uvsOf, normalsOf, countF]
  | cons l rest ih =>
    simp only [objScan] at h
    cases hs : objStep w path s l with
    | none => simp [hs] at h
    | some s0 =>
      simp only [hs] at h
      obtain ⟨a1, a2, a3, a4, x, a5, a6⟩ := objStep_effect w path s s0 l hs
      obtain ⟨b1, b2, b3, b4, y, b5, b6⟩ := ih s0 h
      refine ⟨?_, ?_, ?_, ?_, x ++ y, ?_, ?_⟩
      · rw [b1, a1, positionsOf_cons l rest, List.append_assoc]
      · rw [b2, a2, uvsOf_cons l rest, List.append_assoc]
      · rw [b3, a3, normalsOf_cons l rest, List.append_assoc]
      · rw [b4, a4, countF_cons l rest]
        push_cast
        ring
      · rw [b5, a5, List.append_assoc]
      · rw [List.length_append, a6, b6, countF_cons l rest]
        ring

/-- A scan of well-formed lines never reads outside a stream. -/
theorem objScan_wf_some (w : World Img) (path : String) (lines : List (ObjLine F))
    (s : LoadState F Img)
    (h : WellFormedFrom s.vertexPositions.length s.vertexUVs.length
      s.vertexNormals.length lines) :
    ∃ s1, objScan w path lines s = some s1 := by
  induction lines generalizing s with
  | nil => exact ⟨s, rfl⟩
  | cons l rest ih =>
    cases l with
    | v p =>
      simp only [objScan, objStep]
      apply ih
      simpa [WellFormedFrom] using h
    | vt t =>
      simp only [objScan, objStep]
      apply ih
      simpa [WellFormedFrom] using h
    | vn n =>
      simp only [objScan, objStep]
      apply ih
      simpa [WellFormedFrom] using h
    | other =>
      simp only [objScan, objStep]
      apply ih
      simpa [WellFormedFrom] using h
    | usemtl n =>
      simp only [objScan, objStep]
      apply ih
      simpa [WellFormedFrom] using h
    | mtllib n =>
      simp only [objScan, objStep]
      by_cases hl : s.loadedMaterial = true
      · simp only [hl, if_true]
        apply ih
        simpa [WellFormedFrom] using h
      · simp only [hl]
        apply ih
        simpa [WellFormedFrom] using h
    | f c0 c1 c2 =>
      obtain ⟨⟨h0, h1, h2⟩, hrest⟩ := h
      obtain ⟨p0, t0, n0, p1, t1, n1, p2, t2, n2, _, _, _, hstep⟩ :=
        objStep_f_some w path s c0 c1 c2 h0 h1 h2
      simp only [objScan, hstep]
      apply ih
      simpa using hrest

end ScanLemmas

/-! ## Lemmas on the material catalog -/

section CatalogLemmas

variable {Img : Type}

theorem mtlStep_fresh (w : World Img) (s : MtlState Img) (l : MtlLine)
    (h : s.meshSegments.Fresh) : (mtlStep w s l).meshSegments.Fresh := by
  cases l with
  | other => exact h
  | newmtl n =>
    intro k e hk
    simp only [mtlStep, SegmentMap.assign, SegmentMap.find_update] at hk
    by_cases hn : n = k
    · simp only [hn, if_true, Option.some.injEq] at hk
      subst hk
      exact ⟨rfl, rfl⟩
    · simp only [hn, if_false] at hk
      exact h k e hk
  | map_Kd q =>
    by_cases hc : s.currentMaterialKey = ""
    · simpa [mtlStep, hc] using h
    · have hseg : (s.meshSegments.update s.currentMaterialKey id).Fresh := by
        intro k e hk
        rw [SegmentMap.find_update] at hk
        by_cases hn : s.currentMaterialKey = k
        · simp only [hn, if_true, Option.some.injEq, id] at hk
          subst hk
          cases hf : SegmentMap.find s.meshSegments k with
          | none => exact ⟨rfl, rfl⟩
          | some e0 => simpa using h k e0 hf
        · simp only [hn, if_false] at hk
          exact h k e hk
      cases hd : w.stbi_load q with
      | none => simpa [mtlStep, hc, hd, GLState.glGenTextures] using hseg
      | some data =>
        intro k e hk
        simp only [mtlStep, hc, if_false, hd, GLState.glGenTextures,
          SegmentMap.find_update] at hk
        by_cases hn : s.currentMaterialKey = k
        · simp only [hn, if_true, Option.some.injEq] at hk
          subst hk
          cases hf : SegmentMap.find s.meshSegments k with
          | none => exact ⟨rfl, rfl⟩
          | some e0 => simpa [id] using h k e0 hf
        · simp only [hn, if_false] at hk
          exact h k e hk

theorem mtlStep_nodup (w : World Img) (s : MtlState Img) (l : MtlLine)
    (h : s.meshSegments.keys.Nodup) : (mtlStep w s l).meshSegments.keys.Nodup := by
  cases l with
  | other => exact h
  | newmtl n => exact SegmentMap.keys_update_nodup _ _ _ h
  | map_Kd q =>
    by_cases hc : s.currentMaterialKey = ""
    · simpa [mtlStep, hc] using h
    · have h1 := SegmentMap.keys_update_nodup _ s.currentMaterialKey id h
      cases hd : w.stbi_load q with
      | none => simpa [mtlStep, hc, hd, GLState.glGenTextures] using h1
      | some data =>
        simp only [mtlStep, hc, if_false, hd, GLState.glGenTextures]
        exact SegmentMap.keys_update_nodup _ _ _ h1

theorem mtlScan_fresh_nodup (w : World Img) (lines : List MtlLine) (s : MtlState Img)
    (h : s.meshSegments.Fresh) (hn : s.meshSegments.keys.Nodup) :
    (mtlScan w lines s).meshSegments.Fresh ∧ (mtlScan w lines s).meshSegments.keys.Nodup := by
  induction lines generalizing s with
  | nil => exact ⟨h, hn⟩
  | cons l rest ih =>
    exact ih (mtlStep w s l) (mtlStep_fresh w s l h) (mtlStep_nodup w s l hn)

/-- The catalog returned by `loadMaterialsMTLLIB` has one entry per key, each with
start offset 0 and duration 0. -/
theorem loadMaterialsMTLLIB_fresh_nodup (w : World Img) (path : String) (gl : GLState Img) :
    (loadMaterialsMTLLIB w path gl).1.Fresh ∧ (loadMaterialsMTLLIB w path gl).1.keys.Nodup := by
  unfold loadMaterialsMTLLIB
  cases w.mtlFile path with
  | none =>
    refine ⟨?_, by simp [SegmentMap.keys]⟩
    intro k e hk
    simp [SegmentMap.find] at hk
  | some lines =>
    refine mtlScan_fresh_nodup w lines { gl := gl } ?_ (by simp [SegmentMap.keys])
    intro k e hk
    simp [SegmentMap.find] at hk

end CatalogLemmas

/-! ## Lemmas on the segment bookkeeping of `loadOBJ` -/

section SegmentLemmas

variable {F Img : Type}

/-- What a line leaves untouched, by kind of line. -/
theorem objStep_frame (w : World Img) (path : String) (s s1 : LoadState F Img)
    (l : ObjLine F) (h : objStep w path s l = some s1) :
    (l.isUsemtl = false →
      s1.lastMaterialName = s.lastMaterialName ∧
      s1.facesAddedSinceLastMaterial = s.facesAddedSinceLastMaterial ∧
      (l.isMtllib = false → s1.meshSegments = s.meshSegments)) ∧
    (l.isMtllib = false →
      s1.loadedMaterial = s.loadedMaterial ∧ s1.gl = s.gl ∧
      s1.loaderCalls = s.loaderCalls) := by
  cases l with
  | v p => simp [objStep] at h; subst h; simp
  | vt t => simp [objStep] at h; subst h; simp
  | vn n => simp [objStep] at h; subst h; simp
  | other => simp [objStep] at h; subst h; simp
  | usemtl n => simp [objStep] at h; subst h; simp [ObjLine.isUsemtl]
  | mtllib n =>
    by_cases hl : s.loadedMaterial = true
    · simp [objStep, hl] at h; subst h; simp [ObjLine.isMtllib]
    · simp [objStep, hl] at h; subst h; simp [ObjLine.isMtllib]
  | f c0 c1 c2 =>
    simp only [objStep] at h
    cases e0 : pushCorner s s.vertices c0 with
    | none => simp [e0] at h
    | some vs0 =>
      cases e1 : pushCorner s vs0 c1 with
      | none => simp [e0, e1] at h
      | some vs1 =>
        cases e2 : pushCorner s vs1 c2 with
        | none => simp [e0, e1, e2] at h
        | some vs2 =>
          simp only [e0, e1, e2, Option.some.injEq] at h
          subst h
          simp

/-- A scan over lines without `usemtl` keeps the open material and the counter
value recorded for it; without `mtllib` lines either, it keeps the whole map. -/
theorem objScan_frame_usemtl (w : World Img) (path : String) (lines : List (ObjLine F))
    (s s1 : LoadState F Img) (h : objScan w path lines s = some s1)
    (hno : ∀ l ∈ lines, l.isUsemtl = false) :
    s1.lastMaterialName = s.lastMaterialName ∧
    s1.facesAddedSinceLastMaterial = s.facesAddedSinceLastMaterial ∧
    ((∀ l ∈ lines, l.isMtllib = false) → s1.meshSegments = s.meshSegments) := by
  induction lines generalizing s with
  | nil => simp [objScan] at h; subst h; simp
  | cons l rest ih =>
    simp only [objScan] at h
    cases hs : objStep w path s l with
    | none => simp [hs] at h
    | some s0 =>
      simp only [hs] at h
      obtain ⟨a1, a2, a3⟩ := (objStep_frame w path s s0 l hs).1 (hno l (List.mem_cons_self _ _))
      obtain ⟨b1, b2, b3⟩ := ih s0 h (fun x hx => hno x (List.mem_cons_of_mem _ hx))
      refine ⟨b1.trans a1, b2.trans a2, fun hm => ?_⟩
      rw [b3 (fun x hx => hm x (List.mem_cons_of_mem _ hx)),
        a3 (hm l (List.mem_cons_self _ _))]

/-- A scan over lines without `mtllib` neither calls the material loader nor
touches the OpenGL state. -/
theorem objScan_frame_mtllib (w : World Img) (path : String) (lines : List (ObjLine F))
    (s s1 : LoadState F Img) (h : objScan w path lines s = some s1)
    (hno : ∀ l ∈ lines, l.isMtllib = false) :
    s1.loadedMaterial = s.loadedMaterial ∧ s1.gl = s.gl ∧
      s1.loaderCalls = s.loaderCalls := by
  induction lines generalizing s with
  | nil => simp [objScan] at h; subst h; simp
  | cons l rest ih =>
    simp only [objScan] at h
    cases hs : objStep w path s l with
    | none => simp [hs] at h
    | some s0 =>
      simp only [hs] at h
      obtain ⟨a1, a2, a3⟩ := (objStep_frame w path s s0 l hs).2 (hno l (List.mem_cons_self _ _))
      obtain ⟨b1, b2, b3⟩ := ih s0 h (fun x hx => hno x (List.mem_cons_of_mem _ hx))
      exact ⟨b1.trans a1, b2.trans a2, b3.trans a3⟩

/-- The state after a `usemtl` line. -/
theorem objStep_usemtl (w : World Img) (path : String) (s : LoadState F Img) (n : String) :
    objStep w path s (.usemtl n) = some { s with
      meshSegments :=
        if s.lastMaterialName = "" then
          s.meshSegments.update n (fun e => { e with vertexBufferStartIndex := s.facesAdded })
        else
          (s.meshSegments.update n
            (fun e => { e with vertexBufferStartIndex := s.facesAdded })).update
            s.lastMaterialName (fun e => { e with
              vertexBufferDuration := s.facesAdded - s.facesAddedSinceLastMaterial }),
      facesAddedSinceLastMaterial := s.facesAdded,
      lastMaterialName := n } := rfl

/-- The entry of the material named by a `usemtl` line, right after the line. -/
theorem find_after_usemtl (w : World Img) (path : String) (s s1 : LoadState F Img)
    (n : String) (h : objStep w path s (.usemtl n) = some s1) :
    ∃ e, s1.meshSegments.find n = some e ∧ e.vertexBufferStartIndex = s.facesAdded ∧
      (s.lastMaterialName = "" ∨ s.lastMaterialName ≠ n →
        e.vertexBufferDuration = ((s.meshSegments.find n).getD {}).vertexBufferDuration) := by
  rw [objStep_usemtl] at h
  simp only [Option.some.injEq] at h
  subst h
  by_cases hl : s.lastMaterialName = ""
  · simp [hl, SegmentMap.find_update]
  · by_cases hn : s.lastMaterialName = n
    · subst hn
      simp [hl, SegmentMap.find_update]
    · simp [hl, hn, SegmentMap.find_update]

/-- The entry of the material that was open, right after the next `usemtl` line. -/
theorem find_last_after_usemtl (w : World Img) (path : String) (s s1 : LoadState F Img)
    (n : String) (h : objStep w path s (.usemtl n) = some s1)
    (hl : s.lastMaterialName ≠ "") :
    ∃ e, s1.meshSegments.find s.lastMaterialName = some e ∧
      e.vertexBufferDuration = s.facesAdded - s.facesAddedSinceLastMaterial := by
  rw [objStep_usemtl] at h
  simp only [Option.some.injEq] at h
  subst h
  simp [hl, SegmentMap.find_update]

end SegmentLemmas

/-! ## Invariants of the segment bookkeeping -/

section Invariants

variable {F Img : Type}

theorem usedNames_cons (l : ObjLine F) (rest : List (ObjLine F)) :
    usedNames (l :: rest) = usedNames [l] ++ usedNames rest := by
  cases l <;> simp [usedNames]

theorem usedNames_append (l1 l2 : List (ObjLine F)) :
    usedNames (l1 ++ l2) = usedNames l1 ++ usedNames l2 := by
  induction l1 with
  | nil => simp [usedNames]
  | cons l rest ih =>
    rw [List.cons_append, usedNames_cons, ih, usedNames_cons l rest, List.append_assoc]

theorem usedNames_single (l : ObjLine F) (h : l.isUsemtl = false) : usedNames [l] = [] := by
  cases l <;> simp [usedNames, ObjLine.isUsemtl] at h ⊢

/-- A line that is neither `usemtl` nor `mtllib` leaves the bookkeeping alone and
does not decrease the face counter. -/
theorem objStep_plain (w : World Img) (path : String) (s s1 : LoadState F Img)
    (l : ObjLine F) (h : objStep w path s l = some s1)
    (hu : l.isUsemtl = false) (hm : l.isMtllib = false) :
    s1.meshSegments = s.meshSegments ∧ s1.lastMaterialName = s.lastMaterialName ∧
    s1.facesAddedSinceLastMaterial = s.facesAddedSinceLastMaterial ∧
    s.facesAdded ≤ s1.facesAdded := by
  obtain ⟨a1, a2, a3⟩ := (objStep_frame w path s s1 l h).1 hu
  obtain ⟨_, _, _, a4, _⟩ := objStep_effect w path s s1 l h
  refine ⟨a3 hm, a1, a2, ?_⟩
  rw [a4]
  have : (0 : Int) ≤ (countF [l] : Int) := Int.ofNat_nonneg _
  omega

/-- The state after an `mtllib` line. -/
theorem objStep_mtllib (w : World Img) (path : String) (s s1 : LoadState F Img)
    (n : String) (h : objStep w path s (.mtllib n) = some s1) :
    s1.facesAdded = s.facesAdded ∧
    s1.facesAddedSinceLastMaterial = s.facesAddedSinceLastMaterial ∧
    s1.lastMaterialName = s.lastMaterialName ∧
    (s1.meshSegments = s.meshSegments ∨
      (s1.meshSegments.Fresh ∧ s1.meshSegments.keys.Nodup)) := by
  by_cases hl : s.loadedMaterial = true
  · simp [objStep, hl] at h
    subst h
    simp
  · simp [objStep, hl] at h
    subst h
    exact ⟨rfl, rfl, rfl, Or.inr (loadMaterialsMTLLIB_fresh_nodup w _ s.gl)⟩

theorem objStep_nodup (w : World Img) (path : String) (s s1 : LoadState F Img)
    (l : ObjLine F) (h : objStep w path s l = some s1)
    (hn : s.meshSegments.keys.Nodup) : s1.meshSegments.keys.Nodup := by
  by_cases hu : l.isUsemtl = false
  · by_cases hm : l.isMtllib = false
    · rw [(objStep_plain w path s s1 l h hu hm).1]
      exact hn
    · cases l <;> simp [ObjLine.isMtllib] at hm
      rename_i n
      rcases (objStep_mtllib w path s s1 n h).2.2.2 with h1 | h1
      · rw [h1]
        exact hn
      · exact h1.2
  · cases l <;> simp [ObjLine.isUsemtl] at hu
    rename_i n
    rw [objStep_usemtl] at h
    simp only [Option.some.injEq] at h
    subst h
    by_cases hl : s.lastMaterialName = ""
    · simp only [hl, if_true]
      exact SegmentMap.keys_update_nodup _ _ _ hn
    · simp only [hl, if_false]
      exact SegmentMap.keys_update_nodup _ _ _ (SegmentMap.keys_update_nodup _ _ _ hn)

theorem objScan_nodup (w : World Img) (path : String) (lines : List (ObjLine F))
    (s s1 : LoadState F Img) (h : objScan w path lines s = some s1)
    (hn : s.meshSegments.keys.Nodup) : s1.meshSegments.keys.Nodup := by
  induction lines generalizing s with
  | nil => simp [objScan] at h; subst h; exact hn
  | cons l rest ih =>
    simp only [objScan] at h
    cases hs : objStep w path s l with
    | none => simp [hs] at h
    | some s0 =>
      simp only [hs] at h
      exact ih s0 h (objStep_nodup w path s s0 l hs hn)

theorem objStep_unusedClosed (w : World Img) (path : String) (s s1 : LoadState F Img)
    (l : ObjLine F) (U : List String) (h : objStep w path s l = some s1)
    (hu : UnusedClosed U s) : UnusedClosed (U ++ usedNames [l]) s1 := by
  by_cases hus : l.isUsemtl = false
  · rw [usedNames_single l hus, List.append_nil]
    by_cases hm : l.isMtllib = false
    · obtain ⟨a1, a2, _, _⟩ := objStep_plain w path s s1 l h hus hm
      unfold UnusedClosed
      rw [a1, a2]
      exact hu
    · cases l <;> simp [ObjLine.isMtllib] at hm
      rename_i n
      obtain ⟨_, _, a3, a4⟩ := objStep_mtllib w path s s1 n h
      refine ⟨?_, by rw [a3]; exact hu.2⟩
      rcases a4 with a4 | a4
      · rw [a4]
        exact hu.1
      · intro k e hk _
        exact (a4.1 k e hk).2
  · cases l <;> simp [ObjLine.isUsemtl] at hus
    rename_i n
    rw [objStep_usemtl] at h
    simp only [Option.some.injEq] at h
    subst h
    refine ⟨?_, Or.inr (by simp [usedNames])⟩
    intro k e hk hkU
    have hkU1 : k ∉ U ∧ k ≠ n := by
      simpa [usedNames] using hkU
    by_cases hl : s.lastMaterialName = ""
    · simp only [hl, if_true, SegmentMap.find_update] at hk
      simp only [Ne.symm hkU1.2, if_false] at hk
      exact hu.1 k e hk hkU1.1
    · have hlk : s.lastMaterialName ≠ k := by
        rcases hu.2 with h0 | h0
        · exact absurd h0 hl
        · intro hh
          exact hkU1.1 (hh ▸ h0)
      simp only [hl, if_false, SegmentMap.find_update] at hk
      simp only [hlk, Ne.symm hkU1.2, if_false] at hk
      exact hu.1 k e hk hkU1.1

theorem objScan_lastUsed (w : World Img) (path : String) (lines : List (ObjLine F))
    (s s1 : LoadState F Img) (h : objScan w path lines s = some s1) :
    s1.lastMaterialName = lastUsed lines s.lastMaterialName := by
  induction lines generalizing s with
  | nil => simp [objScan] at h; subst h; rfl
  | cons l rest ih =>
    simp only [objScan] at h
    cases hs : objStep w path s l with
    | none => simp [hs] at h
    | some s0 =>
      simp only [hs] at h
      rw [ih s0 h]
      by_cases hus : l.isUsemtl = false
      · rw [((objStep_frame w path s s0 l hs).1 hus).1]
        cases l <;> simp [ObjLine.isUsemtl] at hus <;> rfl
      · cases l <;> simp [ObjLine.isUsemtl] at hus
        rename_i n
        rw [objStep_usemtl] at hs
        simp only [Option.some.injEq] at hs
        subst hs
        rfl

theorem objScan_unusedClosed (w : World Img) (path : String) (lines : List (ObjLine F))
    (U : List String) (s s1 : LoadState F Img) (h : objScan w path lines s = some s1)
    (hu : UnusedClosed U s) : UnusedClosed (U ++ usedNames lines) s1 := by
  induction lines generalizing s U with
  | nil => simp [objScan] at h; subst h; simpa [usedNames] using hu
  | cons l rest ih =>
    simp only [objScan] at h
    cases hs : objStep w path s l with
    | none => simp [hs] at h
    | some s0 =>
      simp only [hs] at h
      rw [usedNames_cons, ← List.append_assoc]
      exact ih (U ++ usedNames [l]) s0 h (objStep_unusedClosed w path s s0 l U hs hu)

end Invariants

/-! ## Disjointness of the ranges -/

section Disjointness

variable {F Img : Type}

theorem apart_disjoint (a b : MeshSegment) (h : a.Apart b) : a.Disjoint b := by
  rintro ⟨i, ⟨h1, h2⟩, h3, h4⟩
  unfold MeshSegment.Apart at h
  omega

/-- The entries of the map after a `usemtl n` line: the entry of `n` starts at the
face counter; the entry of the material that was open keeps its start and gets the
distance to the recorded counter value as duration; the others are as before. -/
theorem usemtl_classify (w : World Img) (path : String) (s s1 : LoadState F Img)
    (n : String) (h : objStep w path s (.usemtl n) = some s1) (k : String) (e : MeshSegment)
    (hk : s1.meshSegments.find k = some e) :
    (k = n ∧ e.vertexBufferStartIndex = s.facesAdded ∧
      (k = "" → e.vertexBufferDuration
        = ((s.meshSegments.find "").getD {}).vertexBufferDuration)) ∨
    (k ≠ n ∧ k = s.lastMaterialName ∧ k ≠ "" ∧
      e.vertexBufferStartIndex
        = ((s.meshSegments.find k).getD {}).vertexBufferStartIndex ∧
      e.vertexBufferDuration = s.facesAdded - s.facesAddedSinceLastMaterial) ∨
    (k ≠ n ∧ (s.lastMaterialName = "" ∨ k ≠ s.lastMaterialName) ∧
      s.meshSegments.find k = some e) := by
  rw [objStep_usemtl] at h
  simp only [Option.some.injEq] at h
  subst h
  by_cases hl : s.lastMaterialName = ""
  · simp only [hl, if_true, SegmentMap.find_update] at hk
    by_cases hnk : n = k
    · simp only [hnk, if_true, Option.some.injEq] at hk
      subst hk
      subst hnk
      refine Or.inl ⟨rfl, rfl, ?_⟩
      intro h0
      subst h0
      rfl
    · simp only [hnk, if_false] at hk
      exact Or.inr (Or.inr ⟨Ne.symm hnk, Or.inl hl, hk⟩)
  · simp only [hl, if_false, SegmentMap.find_update] at hk
    by_cases hlk : s.lastMaterialName = k
    · simp only [hlk, if_true, Option.some.injEq] at hk
      by_cases hnk : n = k
      · simp only [hnk, if_true, Option.getD_some] at hk
        subst hk
        refine Or.inl ⟨hnk.symm, rfl, ?_⟩
        intro h0
        exact absurd (hlk.trans h0) hl
      · simp only [hnk, if_false] at hk
        subst hk
        exact Or.inr (Or.inl ⟨Ne.symm hnk, hlk.symm, fun h0 => hl (hlk.trans h0), rfl, rfl⟩)
    · simp only [hlk, if_false] at hk
      by_cases hnk : n = k
      · simp only [hnk, if_true, Option.some.injEq] at hk
        subst hk
        subst hnk
        refine Or.inl ⟨rfl, rfl, ?_⟩
        intro h0
        subst h0
        rfl
      · simp only [hnk, if_false] at hk
        exact Or.inr (Or.inr ⟨Ne.symm hnk, Or.inr (Ne.symm hlk), hk⟩)

theorem usemtl_fields (w : World Img) (path : String) (s s1 : LoadState F Img)
    (n : String) (h : objStep w path s (.usemtl n) = some s1) :
    s1.facesAdded = s.facesAdded ∧ s1.facesAddedSinceLastMaterial = s.facesAdded ∧
      s1.lastMaterialName = n := by
  rw [objStep_usemtl] at h
  simp only [Option.some.injEq] at h
  subst h
  exact ⟨rfl, rfl, rfl⟩

theorem objStep_tracked_usemtl (w : World Img) (path : String) (s s1 : LoadState F Img)
    (n : String) (h : objStep w path s (.usemtl n) = some s1) (ht : Tracked s) :
    Tracked s1 := by
  obtain ⟨t1, t2, t3, t4, t5, t6⟩ := ht
  obtain ⟨f1, f2, f3⟩ := usemtl_fields w path s s1 n h
  -- a summary of every entry of the new map
  have summ : ∀ k e, s1.meshSegments.find k = some e →
      (k = n ∧ e.vertexBufferStartIndex = s.facesAdded ∧
        (k = "" → e.vertexBufferDuration ≤ 0)) ∨
      (k ≠ n ∧ k = s.lastMaterialName ∧ k ≠ "" ∧
        e.vertexBufferDuration = s.facesAdded - s.facesAddedSinceLastMaterial ∧
        e.vertexBufferStartIndex ≤ s.facesAddedSinceLastMaterial ∧
        (e.vertexBufferStartIndex = s.facesAddedSinceLastMaterial ∨
          ∀ k0 e0, s.meshSegments.find k0 = some e0 → e0.vertexBufferDuration ≤ 0)) ∨
      (k ≠ n ∧ s.meshSegments.find k = some e ∧
        (0 < e.vertexBufferDuration →
          e.vertexBufferStartIndex + e.vertexBufferDuration
            ≤ s.facesAddedSinceLastMaterial)) := by
    intro k e hk
    rcases usemtl_classify w path s s1 n h k e hk with ⟨c1, c2, c3⟩ | ⟨c1, c2, c3, c4, c5⟩ |
      ⟨c1, c2, c3⟩
    · refine Or.inl ⟨c1, c2, fun h0 => ?_⟩
      rw [c3 h0]
      cases hf : SegmentMap.find s.meshSegments "" with
      | none => simp
      | some e0 => simpa using t6 e0 hf
    · refine Or.inr (Or.inl ⟨c1, c2, c3, c5, ?_, ?_⟩)
      · rw [c4]
        rcases t4 with t4 | ⟨e0, he0, hs0⟩ | t4
        · exact absurd (c2.trans t4) c3
        · rw [c2, he0]
          simp [hs0]
        · cases hf : SegmentMap.find s.meshSegments k with
          | none => simpa using t1
          | some e0 => simpa using (t4 k e0 hf).2
      · rw [c4]
        rcases t4 with t4 | ⟨e0, he0, hs0⟩ | t4
        · exact absurd (c2.trans t4) c3
        · left
          rw [c2, he0]
          simp [hs0]
        · right
          intro k0 e0 h0
          exact (t4 k0 e0 h0).1
    · refine Or.inr (Or.inr ⟨c1, c3, fun hpos => ?_⟩)
      rcases c2 with c2 | c2
      · by_cases hke : k = ""
        · subst hke
          have := t6 e c3
          omega
        · exact t3 k e c3 (by rw [c2]; exact hke) hpos
      · exact t3 k e c3 c2 hpos
  obtain ⟨en, hen, hens, _⟩ := find_after_usemtl w path s s1 n h
  refine ⟨by rw [f2]; omega, by rw [f1, f2], ?_, ?_, ?_, ?_⟩
  · intro k e hk hne hpos
    rw [f3] at hne
    rw [f2]
    rcases summ k e hk with ⟨c1, _⟩ | ⟨_, _, _, c3, c4, _⟩ | ⟨_, _, c3⟩
    · exact absurd c1 hne
    · omega
    · have := c3 hpos
      omega
  · right
    left
    exact ⟨en, by rw [f3]; exact hen, by rw [f2]; exact hens⟩
  · intro k1 k2 e1 e2 hne h1 h2
    unfold MeshSegment.Apart
    rcases summ k1 e1 h1 with ⟨a1, a2, _⟩ | ⟨a1, ak, a2, a3, a4, a5⟩ | ⟨a1, a2, a3⟩ <;>
    rcases summ k2 e2 h2 with ⟨b1, b2, _⟩ | ⟨b1, bk, b2, b3, b4, b5⟩ | ⟨b1, b2, b3⟩
    · exact absurd (a1.trans b1.symm) hne
    · omega
    · by_cases hpos : 0 < e2.vertexBufferDuration
      · have := b3 hpos
        omega
      · omega
    · omega
    · exact absurd (ak.trans bk.symm) hne
    · by_cases hpos : 0 < e2.vertexBufferDuration
      · have := b3 hpos
        rcases a5 with a5 | a5
        · omega
        · have hz := a5 k2 e2 b2
          omega
      · omega
    · by_cases hpos : 0 < e1.vertexBufferDuration
      · have := a3 hpos
        omega
      · omega
    · by_cases hpos : 0 < e1.vertexBufferDuration
      · have := a3 hpos
        rcases b5 with b5 | b5
        · omega
        · have hz := b5 k1 e1 a2
          omega
      · omega
    · exact t5 k1 k2 e1 e2 hne a2 b2
  · intro e hk
    rcases summ "" e hk with ⟨_, _, c3⟩ | ⟨_, _, c2, _⟩ | ⟨_, c2, _⟩
    · exact c3 rfl
    · exact absurd rfl c2
    · exact t6 e c2

/-- Every line keeps the invariant `Tracked`. -/
theorem objStep_tracked (w : World Img) (path : String) (s s1 : LoadState F Img)
    (l : ObjLine F) (h : objStep w path s l = some s1) (ht : Tracked s) : Tracked s1 := by
  by_cases hus : l.isUsemtl = false
  · obtain ⟨t1, t2, t3, t4, t5, t6⟩ := ht
    by_cases hm : l.isMtllib = false
    · obtain ⟨a1, a2, a3, a4⟩ := objStep_plain w path s s1 l h hus hm
      unfold Tracked
      rw [a1, a2, a3]
      exact ⟨t1, by omega, t3, t4, t5, t6⟩
    · cases l <;> simp [ObjLine.isMtllib] at hm
      rename_i n
      obtain ⟨a1, a2, a3, a4⟩ := objStep_mtllib w path s s1 n h
      unfold Tracked
      rw [a1, a2, a3]
      rcases a4 with a4 | a4
      · rw [a4]
        exact ⟨t1, t2, t3, t4, t5, t6⟩
      · refine ⟨t1, t2, ?_, Or.inr (Or.inr ?_), ?_, ?_⟩
        · intro k e hk _ hpos
          have := a4.1 k e hk
          omega
        · intro k e hk
          have := a4.1 k e hk
          omega
        · intro k1 k2 e1 e2 _ h1 _
          have := a4.1 k1 e1 h1
          unfold MeshSegment.Apart
          omega
        · intro e hk
          have := a4.1 _ e hk
          omega
  · cases l <;> simp [ObjLine.isUsemtl] at hus
    rename_i n
    exact objStep_tracked_usemtl w path s s1 n h ht

theorem objScan_tracked (w : World Img) (path : String) (lines : List (ObjLine F))
    (s s1 : LoadState F Img) (h : objScan w path lines s = some s1) (ht : Tracked s) :
    Tracked s1 := by
  induction lines generalizing s with
  | nil => simp [objScan] at h; subst h; exact ht
  | cons l rest ih =>
    simp only [objScan] at h
    cases hs : objStep w path s l with
    | none => simp [hs] at h
    | some s0 =>
      simp only [hs] at h
      exact ih s0 h (objStep_tracked w path s s0 l hs ht)

/-- Every line keeps the invariant `ClosedBounded`. -/
theorem objStep_closedBounded (w : World Img) (path : String) (s s1 : LoadState F Img)
    (l : ObjLine F) (h : objStep w path s l = some s1) (hb : ClosedBounded s) :
    ClosedBounded s1 := by
  obtain ⟨b1, b2, b3, b4, b5⟩ := hb
  by_cases hus : l.isUsemtl = false
  · by_cases hm : l.isMtllib = false
    · obtain ⟨a1, a2, a3, a4⟩ := objStep_plain w path s s1 l h hus hm
      unfold ClosedBounded
      rw [a1, a2, a3]
      refine ⟨b1, by omega, ?_, b4, b5⟩
      intro k e hk hne
      have := b3 k e hk hne
      omega
    · cases l <;> simp [ObjLine.isMtllib] at hm
      rename_i n
      obtain ⟨a1, a2, a3, a4⟩ := objStep_mtllib w path s s1 n h
      unfold ClosedBounded
      rw [a1, a2, a3]
      rcases a4 with a4 | a4
      · rw [a4]
        exact ⟨b1, b2, b3, b4, b5⟩
      · refine ⟨b1, b2, ?_, ?_, ?_⟩
        · intro k e hk _
          have := a4.1 k e hk
          omega
        · intro e hk
          have := a4.1 _ e hk
          omega
        · intro e hk
          have := a4.1 _ e hk
          omega
  · cases l <;> simp [ObjLine.isUsemtl] at hus
    rename_i n
    obtain ⟨f1, f2, f3⟩ := usemtl_fields w path s s1 n h
    have hopen : ((SegmentMap.find s.meshSegments s.lastMaterialName).getD
        {}).vertexBufferStartIndex ≤ s.facesAddedSinceLastMaterial := by
      cases hf : SegmentMap.find s.meshSegments s.lastMaterialName with
      | none => simpa using b1
      | some e0 => simpa using b4 e0 hf
    have hempty : ((SegmentMap.find s.meshSegments "").getD {}).vertexBufferDuration ≤ 0 := by
      cases hf : SegmentMap.find s.meshSegments "" with
      | none => simp
      | some e0 => simpa using b5 e0 hf
    refine ⟨by rw [f2]; omega, by rw [f1, f2], ?_, ?_, ?_⟩
    · intro k e hk hne
      rw [f3] at hne
      rw [f1]
      rcases usemtl_classify w path s s1 n h k e hk with ⟨c1, _⟩ | ⟨_, c2, _, c4, c5⟩ |
        ⟨_, c2, c3⟩
      · exact absurd c1 hne
      · rw [c2] at c4
        omega
      · rcases c2 with c2 | c2
        · by_cases hke : k = ""
          · subst hke
            have h1 := b5 e c3
            have h2 := b4 e (by rw [c2]; exact c3)
            omega
          · exact b3 k e c3 (by rw [c2]; exact hke)
        · exact b3 k e c3 c2
    · intro e hk
      rw [f3] at hk
      rw [f2]
      rcases usemtl_classify w path s s1 n h n e hk with ⟨_, c2, _⟩ | ⟨c1, _⟩ | ⟨c1, _⟩
      · omega
      · exact absurd rfl c1
      · exact absurd rfl c1
    · intro e hk
      rcases usemtl_classify w path s s1 n h "" e hk with ⟨_, _, c3⟩ | ⟨_, _, c3, _⟩ |
        ⟨_, _, c3⟩
      · rw [c3 rfl]
        exact hempty
      · exact absurd rfl c3
      · exact b5 e c3

theorem objScan_closedBounded (w : World Img) (path : String) (lines : List (ObjLine F))
    (s s1 : LoadState F Img) (h : objScan w path lines s = some s1)
    (hb : ClosedBounded s) : ClosedBounded s1 := by
  induction lines generalizing s with
  | nil => simp [objScan] at h; subst h; exact hb
  | cons l rest ih =>
    simp only [objScan] at h
    cases hs : objStep w path s l with
    | none => simp [hs] at h
    | some s0 =>
      simp only [hs] at h
      exact ih s0 h (objStep_closedBounded w path s s0 l hs hb)

/-- A scan over lines without `usemtl` keeps the duration 0 of the open material. -/
theorem objScan_openEmpty (w : World Img) (path : String) (lines : List (ObjLine F))
    (s s1 : LoadState F Img) (h : objScan w path lines s = some s1)
    (hno : ∀ l ∈ lines, l.isUsemtl = false) (ho : OpenEmpty s) : OpenEmpty s1 := by
  induction lines generalizing s with
  | nil => simp [objScan] at h; subst h; exact ho
  | cons l rest ih =>
    simp only [objScan] at h
    cases hs : objStep w path s l with
    | none => simp [hs] at h
    | some s0 =>
      simp only [hs] at h
      apply ih s0 h (fun x hx => hno x (List.mem_cons_of_mem _ hx))
      have hus := hno l (List.mem_cons_self _ _)
      by_cases hm : l.isMtllib = false
      · obtain ⟨a1, a2, _, _⟩ := objStep_plain w path s s0 l hs hus hm
        unfold OpenEmpty
        rw [a1, a2]
        exact ho
      · cases l <;> simp [ObjLine.isMtllib] at hm
        rename_i n
        obtain ⟨_, _, a3, a4⟩ := objStep_mtllib w path s s0 n hs
        unfold OpenEmpty
        rw [a3]
        rcases a4 with a4 | a4
        · rw [a4]
          exact ho
        · intro e hk
          exact (a4.1 _ e hk).2

/-- Right after a `usemtl` line whose name was not used before, the open material
has duration 0. -/
theorem openEmpty_after_usemtl (w : World Img) (path : String) (s s1 : LoadState F Img)
    (n : String) (U : List String) (h : objStep w path s (.usemtl n) = some s1)
    (hu : UnusedClosed U s) (hn : n ∉ U) : OpenEmpty s1 := by
  obtain ⟨_, _, f3⟩ := usemtl_fields w path s s1 n h
  obtain ⟨e, he, _, hdur⟩ := find_after_usemtl w path s s1 n h
  have hlast : s.lastMaterialName = "" ∨ s.lastMaterialName ≠ n := by
    rcases hu.2 with h0 | h0
    · exact Or.inl h0
    · exact Or.inr (fun hh => hn (hh ▸ h0))
  intro e1 hk
  rw [f3, he] at hk
  cases hk
  rw [hdur hlast]
  cases hf : SegmentMap.find s.meshSegments n with
  | none => rfl
  | some e0 => simpa using hu.1 n e0 hf hn

end Disjointness

/-! ## The material library is loaded once -/

section LoadedOnce

variable {F Img : Type}

theorem objStep_loaded (w : World Img) (path : String) (s s1 : LoadState F Img)
    (l : ObjLine F) (h : objStep w path s l = some s1)
    (hl : s.loadedMaterial = true ∨ l.isMtllib = true) : s1.loadedMaterial = true := by
  by_cases hm : l.isMtllib = false
  · rw [((objStep_frame w path s s1 l h).2 hm).1]
    rcases hl with hl | hl
    · exact hl
    · rw [hm] at hl
      cases hl
  · cases l <;> simp [ObjLine.isMtllib] at hm
    rename_i n
    by_cases h0 : s.loadedMaterial = true
    · simp [objStep, h0] at h
      subst h
      exact h0
    · simp [objStep, h0] at h
      subst h
      rfl

theorem objStep_calls_kept (w : World Img) (path : String) (s s1 : LoadState F Img)
    (l : ObjLine F) (h : objStep w path s l = some s1) (hl : s.loadedMaterial = true) :
    s1.loaderCalls = s.loaderCalls := by
  by_cases hm : l.isMtllib = false
  · exact ((objStep_frame w path s s1 l h).2 hm).2.2
  · cases l <;> simp [ObjLine.isMtllib] at hm
    simp [objStep, hl] at h
    subst h
    rfl

theorem objScan_loaded (w : World Img) (path : String) (lines : List (ObjLine F))
    (s s1 : LoadState F Img) (h : objScan w path lines s = some s1)
    (hl : s.loadedMaterial = true ∨ ∃ l ∈ lines, l.isMtllib = true) :
    s1.loadedMaterial = true := by
  induction lines generalizing s with
  | nil =>
    simp [objScan] at h
    subst h
    rcases hl with hl | ⟨l, hmem, _⟩
    · exact hl
    · simp at hmem
  | cons l rest ih =>
    simp only [objScan] at h
    cases hs : objStep w path s l with
    | none => simp [hs] at h
    | some s0 =>
      simp only [hs] at h
      apply ih s0 h
      rcases hl with hl | ⟨x, hmem, hx⟩
      · exact Or.inl (objStep_loaded w path s s0 l hs (Or.inl hl))
      · rcases List.mem_cons.mp hmem with hxl | hxr
        · subst hxl
          exact Or.inl (objStep_loaded w path s s0 x hs (Or.inr hx))
        · exact Or.inr ⟨x, hxr, hx⟩

theorem objScan_calls_kept (w : World Img) (path : String) (lines : List (ObjLine F))
    (s s1 : LoadState F Img) (h : objScan w path lines s = some s1)
    (hl : s.loadedMaterial = true) : s1.loaderCalls = s.loaderCalls := by
  induction lines generalizing s with
  | nil => simp [objScan] at h; subst h; rfl
  | cons l rest ih =>
    simp only [objScan] at h
    cases hs : objStep w path s l with
    | none => simp [hs] at h
    | some s0 =>
      simp only [hs] at h
      rw [ih s0 h (objStep_loaded w path s s0 l hs (Or.inl hl)),
        objStep_calls_kept w path s s0 l hs hl]

/-- An `mtllib` line met after a material library was loaded can be deleted. -/
theorem objScan_drop_mtllib (w : World Img) (path : String) (l1 l2 : List (ObjLine F))
    (b : String) (s : LoadState F Img)
    (hl : s.loadedMaterial = true ∨ ∃ l ∈ l1, l.isMtllib = true) :
    objScan w path (l1 ++ ObjLine.mtllib b :: l2) s = objScan w path (l1 ++ l2) s := by
  rw [objScan_append, objScan_append]
  cases h1 : objScan w path l1 s with
  | none => rfl
  | some s1 =>
    have := objScan_loaded w path l1 s s1 h1 hl
    simp [objScan, objStep, this]

end LoadedOnce

/-! ## Texture failures in `loadMaterialsMTLLIB` -/

section TextureLemmas

variable {Img : Type}

end TextureLemmas

/-! ## Properties of `loadOBJ` -/

/-- C1: for a geometry file whose face lines only use indices between 1 and the
current length of the respective stream, `loadOBJ` returns a mesh whose vertex
buffer has exactly 24 × (number of `f` lines) scalars, hence a length that is a
multiple of 24. -/
theorem C1_vertex_buffer_length {F Img : Type} (w : World Img) (path : String)
    (lines : List (ObjLine F)) (gl : GLState Img) (h : WellFormed lines) :
    ∃ mesh, loadOBJ w path (some lines) gl = some mesh ∧
      mesh.vertices.length = 24 * countF lines ∧ mesh.vertices.length % 24 = 0 := by
  obtain ⟨s1, hs1⟩ := objScan_wf_some w path lines ({ gl := gl } : LoadState F Img)
    (by simpa using h)
  obtain ⟨_, _, _, _, ext, hv, hlen⟩ := objScan_effect w path lines _ s1 hs1
  refine ⟨{ meshSegments := s1.meshSegments.values, vertices := s1.vertices }, ?_, ?_, ?_⟩
  · simp [loadOBJ, loadOBJ_state, hs1]
  · simp [hv, hlen]
  · simp [hv, hlen]

/-- C1 at the scenario file: one face line, 24 scalars. -/
theorem C1_vertex_buffer_length_witness :
    WellFormed scenarioFile ∧
    ∃ mesh, loadOBJ sampleWorld "models/a.obj" (some scenarioFile) {} = some mesh ∧
      mesh.vertices.length = 24 * countF scenarioFile ∧ mesh.vertices.length % 24 = 0 :=
  ⟨by decide, C1_vertex_buffer_length sampleWorld "models/a.obj" scenarioFile {} (by decide)⟩

/-- C2: a face line whose corner indices lie between 1 and the number of stream
elements given by the earlier lines is processed without any out-of-bounds read,
and appends to the vertex buffer, corner after corner, the eight scalars
position[v-1].xyz, texcoord[t-1].xy, normal[n-1].xyz: 24 fresh scalars, none shared
between corners. The buffer built by the earlier lines stays an unchanged initial
part, also after the lines that follow, and the line changes nothing else than the
buffer and the face counter. -/
theorem C2_face_expansion {F Img : Type} (w : World Img) (path : String)
    (pre post : List (ObjLine F)) (c0 c1 c2 : Corner) (gl : GLState Img)
    (s : LoadState F Img)
    (hpre : objScan w path pre { gl := gl } = some s)
    (h0 : c0.inRange (positionsOf pre).length (uvsOf pre).length (normalsOf pre).length)
    (h1 : c1.inRange (positionsOf pre).length (uvsOf pre).length (normalsOf pre).length)
    (h2 : c2.inRange (positionsOf pre).length (uvsOf pre).length (normalsOf pre).length) :
    ∃ p0 t0 n0 p1 t1 n1 p2 t2 n2,
      (vecAt (positionsOf pre) (c0.vIndex - 1) = some p0 ∧
        vecAt (uvsOf pre) (c0.tIndex - 1) = some t0 ∧
        vecAt (normalsOf pre) (c0.nIndex - 1) = some n0) ∧
      (vecAt (positionsOf pre) (c1.vIndex - 1) = some p1 ∧
        vecAt (uvsOf pre) (c1.tIndex - 1) = some t1 ∧
        vecAt (normalsOf pre) (c1.nIndex - 1) = some n1) ∧
      (vecAt (positionsOf pre) (c2.vIndex - 1) = some p2 ∧
        vecAt (uvsOf pre) (c2.tIndex - 1) = some t2 ∧
        vecAt (normalsOf pre) (c2.nIndex - 1) = some n2) ∧
      objScan w path (pre ++ [.f c0 c1 c2]) { gl := gl } = some { s with
        vertices := s.vertices ++ (expanded p0 t0 n0 ++ expanded p1 t1 n1 ++ expanded p2 t2 n2),
        facesAdded := s.facesAdded + 3 } ∧
      ∀ sEnd, objScan w path (pre ++ .f c0 c1 c2 :: post) { gl := gl } = some sEnd →
        ∃ rest, sEnd.vertices = s.vertices ++
          (expanded p0 t0 n0 ++ expanded p1 t1 n1 ++ expanded p2 t2 n2) ++ rest := by
  obtain ⟨e1, e2, e3, _, _⟩ := objScan_effect w path pre _ s hpre
  simp only [List.nil_append] at e1 e2 e3
  rw [← e1, ← e2, ← e3] at h0 h1 h2
  obtain ⟨p0, t0, n0, p1, t1, n1, p2, t2, n2, a0, a1, a2, hstep⟩ :=
    objStep_f_some w path s c0 c1 c2 h0 h1 h2
  rw [e1, e2, e3] at a0 a1 a2
  refine ⟨p0, t0, n0, p1, t1, n1, p2, t2, n2, a0, a1, a2, ?_, ?_⟩
  · rw [objScan_append, hpre]
    simp [objScan, hstep]
  · intro sEnd hEnd
    rw [objScan_append, hpre] at hEnd
    simp only [Option.some_bind, objScan, hstep] at hEnd
    obtain ⟨_, _, _, _, ext, hv, _⟩ := objScan_effect w path post _ sEnd hEnd
    exact ⟨ext, hv⟩

/-- C2 at the scenario file: the face `1/1/1 2/2/2 3/3/3` after the nine stream lines
and `usemtl A`. -/
theorem C2_face_expansion_witness :
    ∃ p0 t0 n0 p1 t1 n1 p2 t2 n2,
      (vecAt (positionsOf (scenarioFile.take 10)) ((corner 1).vIndex - 1) = some p0 ∧
        vecAt (uvsOf (scenarioFile.take 10)) ((corner 1).tIndex - 1) = some t0 ∧
        vecAt (normalsOf (scenarioFile.take 10)) ((corner 1).nIndex - 1) = some n0) ∧
      (vecAt (positionsOf (scenarioFile.take 10)) ((corner 2).vIndex - 1) = some p1 ∧
        vecAt (uvsOf (scenarioFile.take 10)) ((corner 2).tIndex - 1) = some t1 ∧
        vecAt (normalsOf (scenarioFile.take 10)) ((corner 2).nIndex - 1) = some n1) ∧
      (vecAt (positionsOf (scenarioFile.take 10)) ((corner 3).vIndex - 1) = some p2 ∧
        vecAt (uvsOf (scenarioFile.take 10)) ((corner 3).tIndex - 1) = some t2 ∧
        vecAt (normalsOf (scenarioFile.take 10)) ((corner 3).nIndex - 1) = some n2) ∧
      objScan sampleWorld "models/a.obj"
          (scenarioFile.take 10 ++ [.f (corner 1) (corner 2) (corner 3)]) { gl := {} }
        = some { (⟨positionsOf scenarioFile, uvsOf scenarioFile, normalsOf scenarioFile,
            false, 0, 0, "A", [("A", {})], [], {}, []⟩ : LoadState Int Nat) with
          vertices := [] ++ (expanded p0 t0 n0 ++ expanded p1 t1 n1 ++ expanded p2 t2 n2),
          facesAdded := 0 + 3 } ∧
      ∀ sEnd, objScan sampleWorld "models/a.obj"
          (scenarioFile.take 10 ++ .f (corner 1) (corner 2) (corner 3) :: [.other])
          { gl := {} } = some sEnd →
        ∃ rest, sEnd.vertices = [] ++
          (expanded p0 t0 n0 ++ expanded p1 t1 n1 ++ expanded p2 t2 n2) ++ rest :=
  C2_face_expansion sampleWorld "models/a.obj" (scenarioFile.take 10) [.other]
    (corner 1) (corner 2) (corner 3) {}
    ⟨positionsOf scenarioFile, uvsOf scenarioFile, normalsOf scenarioFile,
      false, 0, 0, "A", [("A", {})], [], {}, []⟩
    (by decide) (by decide) (by decide) (by decide)

/-- C3 (as stated, refuted): after one face line, `usemtl A` records the start
offset 3, not the number 1 of face lines parsed; and a segment opened before one
face line is closed with duration 3, not 1. -/
theorem C3_counterexample :
    (∃ s e, objScan sampleWorld "models/a.obj" (oneVertex ++ [face1] ++ [.usemtl "A"])
        ({ gl := {} } : LoadState Int Nat) = some s ∧
      s.meshSegments.find "A" = some e ∧
      e.vertexBufferStartIndex = 3 ∧
      e.vertexBufferStartIndex ≠ (countF (oneVertex ++ [face1]) : Int)) ∧
    (∃ s e, objScan sampleWorld "models/a.obj"
        (oneVertex ++ [.usemtl "A"] ++ [face1] ++ [.usemtl "B"])
        ({ gl := {} } : LoadState Int Nat) = some s ∧
      s.meshSegments.find "A" = some e ∧
      e.vertexBufferDuration = 3 ∧
      e.vertexBufferDuration ≠ (countF [face1] : Int)) :=
  ⟨⟨_, _, rfl, rfl, by decide, by decide⟩, ⟨_, _, rfl, rfl, by decide, by decide⟩⟩

/-- C3 (amended): segment offsets are counted in vertices, three per face line.
In a well-formed geometry file, when a `usemtl N` line is processed after k face
lines, the start offset of segment N becomes 3k; and when the next `usemtl` line
is reached after m further face lines, the duration of segment N becomes 3m,
provided the name N is not empty. -/
theorem C3_offsets_in_vertices {F Img : Type} (w : World Img) (path : String)
    (pre mid : List (ObjLine F)) (N M : String) (gl : GLState Img)
    (hwf : WellFormed ((pre ++ [.usemtl N]) ++ (mid ++ [.usemtl M])))
    (hmid : ∀ l ∈ mid, l.isUsemtl = false) :
    ∃ s1 s2 e1,
      objScan w path (pre ++ [.usemtl N]) { gl := gl } = some s1 ∧
      s1.meshSegments.find N = some e1 ∧
      e1.vertexBufferStartIndex = 3 * (countF pre : Int) ∧
      objScan w path ((pre ++ [.usemtl N]) ++ (mid ++ [.usemtl M])) { gl := gl } = some s2 ∧
      (N ≠ "" → ∃ e2, s2.meshSegments.find N = some e2 ∧
        e2.vertexBufferDuration = 3 * (countF mid : Int)) := by
  obtain ⟨s2, hs2⟩ := objScan_wf_some w path
    ((pre ++ [ObjLine.usemtl N]) ++ (mid ++ [ObjLine.usemtl M]))
    ({ gl := gl } : LoadState F Img) hwf
  obtain ⟨s1, hs1, h12⟩ := objScan_append_some w path
    (pre ++ [ObjLine.usemtl N]) (mid ++ [ObjLine.usemtl M]) _ _ hs2
  obtain ⟨sp, hsp, hp1⟩ := objScan_append_some w path pre [ObjLine.usemtl N] _ _ hs1
  obtain ⟨sm, hsm, hm2⟩ := objScan_append_some w path mid [ObjLine.usemtl M] _ _ h12
  have hp1s : objStep w path sp (.usemtl N) = some s1 := by
    simpa [objScan] using hp1
  have hm2s : objStep w path sm (.usemtl M) = some s2 := by
    simpa [objScan] using hm2
  obtain ⟨_, _, _, fp, _⟩ := objScan_effect w path pre _ sp hsp
  obtain ⟨_, _, _, fm, _⟩ := objScan_effect w path mid _ sm hsm
  obtain ⟨lm, sm_since, _⟩ := objScan_frame_usemtl w path mid s1 sm hsm hmid
  obtain ⟨e1, he1, hstart, _⟩ := find_after_usemtl w path sp s1 N hp1s
  have h1 : s1.lastMaterialName = N ∧ s1.facesAddedSinceLastMaterial = sp.facesAdded ∧
      s1.facesAdded = sp.facesAdded := by
    rw [objStep_usemtl] at hp1s
    simp only [Option.some.injEq] at hp1s
    subst hp1s
    exact ⟨rfl, rfl, rfl⟩
  refine ⟨s1, s2, e1, hs1, he1, ?_, hs2, ?_⟩
  · rw [hstart, fp]
    simp
  · intro hN
    have hlast : sm.lastMaterialName ≠ "" := by
      rw [lm, h1.1]
      exact hN
    obtain ⟨e2, he2, hdur⟩ := find_last_after_usemtl w path sm s2 M hm2s hlast
    rw [lm, h1.1] at he2
    refine ⟨e2, he2, ?_⟩
    rw [hdur, fm, sm_since, h1.2.1, h1.2.2]
    ring

/-- C3 (amended) at a sample file: `usemtl A` after one face line, `usemtl B` after
two more. -/
theorem C3_offsets_in_vertices_witness :
    ∃ s1 s2 e1 e2,
      objScan sampleWorld "models/a.obj" ((oneVertex ++ [face1]) ++ [.usemtl "A"])
        ({ gl := {} } : LoadState Int Nat) = some s1 ∧
      s1.meshSegments.find "A" = some e1 ∧
      e1.vertexBufferStartIndex = 3 * (countF (oneVertex ++ [face1]) : Int) ∧
      objScan sampleWorld "models/a.obj"
        (((oneVertex ++ [face1]) ++ [.usemtl "A"]) ++ ([face1, face1] ++ [.usemtl "B"]))
        { gl := {} } = some s2 ∧
      s2.meshSegments.find "A" = some e2 ∧
      e2.vertexBufferDuration = 3 * (countF [face1, face1] : Int) := by
  obtain ⟨s1, s2, e1, h1, h2, h3, h4, h5⟩ :=
    C3_offsets_in_vertices sampleWorld "models/a.obj" (oneVertex ++ [face1]) [face1, face1]
      "A" "B" {} (by decide) (by decide)
  obtain ⟨e2, h6, h7⟩ := h5 (by decide)
  exact ⟨s1, s2, e1, e2, h1, h2, h3, h4, h6, h7⟩

/-- C4 (as stated, refuted): in the well-formed file with one face line followed by
`usemtl A`, the segment has start 3 and duration 0, beyond the face-line count 1.
Counting in vertices does not rescue the claim for the segment left open by the last
`usemtl` line when its name was used before: with `A`, two faces, `B`, one face,
`A` again, segment `A` has start 9 and duration 6, beyond 3 × 3. -/
theorem C4_counterexample :
    (WellFormed (oneVertex ++ [face1, .usemtl "A"]) ∧
      ∃ mesh seg, loadOBJ sampleWorld "models/a.obj"
          (some (oneVertex ++ [face1, .usemtl "A"])) {} = some mesh ∧
        seg ∈ mesh.meshSegments ∧
        ¬ (seg.vertexBufferStartIndex + seg.vertexBufferDuration
            ≤ (countF (oneVertex ++ [face1, .usemtl "A"]) : Int))) ∧
    (WellFormed reuseFile ∧
      ∃ mesh seg, loadOBJ sampleWorld "models/a.obj" (some reuseFile) {} = some mesh ∧
        seg ∈ mesh.meshSegments ∧
        seg.vertexBufferStartIndex = 9 ∧ seg.vertexBufferDuration = 6 ∧
        ¬ (seg.vertexBufferStartIndex + seg.vertexBufferDuration
            ≤ 3 * (countF reuseFile : Int))) :=
  ⟨⟨by decide, { meshSegments := [⟨"", 0, 3, 0⟩], vertices := _ }, ⟨"", 0, 3, 0⟩, rfl,
      by decide, by decide⟩,
    ⟨by decide, { meshSegments := [⟨"", 0, 9, 6⟩, ⟨"", 0, 6, 3⟩], vertices := _ },
      ⟨"", 0, 9, 6⟩, rfl, by decide, rfl, rfl, by decide⟩⟩

/-- C4 (amended): offsets are counted in vertices. For every well-formed geometry
file, every segment of the mesh returned by `loadOBJ`, other than the entry of the
material named by the last `usemtl` line (the segment still open at the end of
the file), satisfies start + duration ≤ 3 × (number of `f` lines), whether or not
material names are used by several `usemtl` lines; the open segment satisfies it
too when its name is used by no earlier `usemtl` line. -/
theorem C4_segment_within_buffer {F Img : Type} (w : World Img) (path : String)
    (lines : List (ObjLine F)) (gl : GLState Img) (hwf : WellFormed lines) :
    ∃ s mesh, loadOBJ_state w path (some lines) gl = some s ∧
      loadOBJ w path (some lines) gl = some mesh ∧
      s.lastMaterialName = lastUsed lines "" ∧
      (∀ seg ∈ mesh.meshSegments,
        s.meshSegments.find (lastUsed lines "") ≠ some seg →
        seg.vertexBufferStartIndex + seg.vertexBufferDuration ≤ 3 * (countF lines : Int)) ∧
      (∀ pre N post, lines = pre ++ ObjLine.usemtl N :: post →
        (∀ l ∈ post, l.isUsemtl = false) → N ∉ usedNames pre →
        ∀ seg ∈ mesh.meshSegments,
          seg.vertexBufferStartIndex + seg.vertexBufferDuration
            ≤ 3 * (countF lines : Int)) := by
  obtain ⟨s1, hs1⟩ := objScan_wf_some w path lines ({ gl := gl } : LoadState F Img) hwf
  have hb : ClosedBounded ({ gl := gl } : LoadState F Img) :=
    ⟨le_refl _, le_refl _, fun k e hk => by simp [SegmentMap.find] at hk,
      fun e hk => by simp [SegmentMap.find] at hk,
      fun e hk => by simp [SegmentMap.find] at hk⟩
  obtain ⟨c1, c2, c3, c4, _⟩ := objScan_closedBounded w path lines _ s1 hs1 hb
  have hn1 := objScan_nodup w path lines _ s1 hs1 (by simp [SegmentMap.keys])
  have hlast : s1.lastMaterialName = lastUsed lines "" :=
    objScan_lastUsed w path lines _ s1 hs1
  obtain ⟨_, _, _, hf, _⟩ := objScan_effect w path lines _ s1 hs1
  have hF : s1.facesAdded = 3 * (countF lines : Int) := by
    rw [hf]
    simp
  refine ⟨s1, { meshSegments := s1.meshSegments.values, vertices := s1.vertices }, hs1, ?_,
    hlast, ?_, ?_⟩
  · simp [loadOBJ, loadOBJ_state, hs1]
  · intro seg hseg hne
    obtain ⟨k, hk⟩ := (SegmentMap.mem_values_iff _ hn1 seg).mp hseg
    have hkl : k ≠ s1.lastMaterialName := by
      intro hh
      rw [hh, hlast] at hk
      exact hne hk
    have := c3 k seg hk hkl
    rw [hF] at this
    exact this
  · intro pre N post hl hpost hN seg hseg
    rw [hl] at hs1
    obtain ⟨sp, hsp, hrest⟩ := objScan_append_some w path pre (ObjLine.usemtl N :: post) _ _ hs1
    simp only [objScan] at hrest
    cases hstep : objStep w path sp (ObjLine.usemtl N) with
    | none => simp [hstep] at hrest
    | some sCut =>
      simp only [hstep] at hrest
      have hu0 : UnusedClosed [] ({ gl := gl } : LoadState F Img) :=
        ⟨fun k e hk => by simp [SegmentMap.find] at hk, Or.inl rfl⟩
      have hu := objScan_unusedClosed w path pre [] _ sp hsp hu0
      simp only [List.nil_append] at hu
      have ho := objScan_openEmpty w path post sCut s1 hrest hpost
        (openEmpty_after_usemtl w path sp sCut N _ hstep hu hN)
      obtain ⟨k, hk⟩ := (SegmentMap.mem_values_iff _ hn1 seg).mp hseg
      rw [← hF]
      by_cases hkl : k = s1.lastMaterialName
      · rw [hkl] at hk
        have h1 := ho seg hk
        have h2 := c4 seg hk
        omega
      · exact c3 k seg hk hkl

/-- C4 (amended) at a sample file that reuses the name `A` and ends with
`usemtl C`: every segment lies within the buffer. -/
theorem C4_segment_within_buffer_witness :
    ∃ s mesh, loadOBJ_state sampleWorld "models/a.obj" (some reuseClosedFile) {} = some s ∧
      loadOBJ sampleWorld "models/a.obj" (some reuseClosedFile) {} = some mesh ∧
      s.lastMaterialName = "C" ∧
      (∀ seg ∈ mesh.meshSegments,
        s.meshSegments.find (lastUsed reuseClosedFile "") ≠ some seg →
        seg.vertexBufferStartIndex + seg.vertexBufferDuration
          ≤ 3 * (countF reuseClosedFile : Int)) ∧
      ∀ seg ∈ mesh.meshSegments,
        seg.vertexBufferStartIndex + seg.vertexBufferDuration
          ≤ 3 * (countF reuseClosedFile : Int) := by
  obtain ⟨s, mesh, h1, h2, h3, h4, h5⟩ :=
    C4_segment_within_buffer sampleWorld "models/a.obj" reuseClosedFile {} (by decide)
  exact ⟨s, mesh, h1, h2, h3.trans (by decide), h4,
    h5 (oneVertex ++ [.usemtl "A", face1, .usemtl "B", face1, .usemtl "A", face1]) "C" []
      rfl (by decide) (by decide)⟩

/-- C5: for every geometry file that loads (any interleaving of `f`, `usemtl` and
`mtllib` lines, repeated material names and an `mtllib` after a `usemtl`
included), any two distinct segments of the mesh returned by `loadOBJ` have
disjoint ranges: no index lies in `[start, start + duration)` of both. -/
theorem C5_segments_disjoint {F Img : Type} (w : World Img) (path : String)
    (lines : List (ObjLine F)) (gl : GLState Img) (hwf : WellFormed lines) :
    ∃ mesh, loadOBJ w path (some lines) gl = some mesh ∧
      ∀ (i j : Nat) (a b : MeshSegment), i ≠ j →
        mesh.meshSegments[i]? = some a → mesh.meshSegments[j]? = some b →
        ¬ ∃ x : Int,
          (a.vertexBufferStartIndex ≤ x ∧
            x < a.vertexBufferStartIndex + a.vertexBufferDuration) ∧
          (b.vertexBufferStartIndex ≤ x ∧
            x < b.vertexBufferStartIndex + b.vertexBufferDuration) := by
  obtain ⟨s1, hs1⟩ := objScan_wf_some w path lines ({ gl := gl } : LoadState F Img) hwf
  have ht : Tracked ({ gl := gl } : LoadState F Img) :=
    ⟨le_refl _, le_refl _, fun k e hk => by simp [SegmentMap.find] at hk, Or.inl rfl,
      fun k1 k2 e1 e2 _ hk => by simp [SegmentMap.find] at hk,
      fun e hk => by simp [SegmentMap.find] at hk⟩
  have ht1 := objScan_tracked w path lines _ s1 hs1 ht
  have hn1 := objScan_nodup w path lines _ s1 hs1 (by simp [SegmentMap.keys])
  have hpw : (s1.meshSegments.values).Pairwise MeshSegment.Apart :=
    SegmentMap.pairwise_values _ _ hn1 ht1.2.2.2.2.1
  rw [List.pairwise_iff_getElem] at hpw
  refine ⟨{ meshSegments := s1.meshSegments.values, vertices := s1.vertices }, ?_, ?_⟩
  · simp [loadOBJ, loadOBJ_state, hs1]
  · intro i j a b hij ha hb
    dsimp only at ha hb
    obtain ⟨hi, rfl⟩ := List.getElem?_eq_some.mp ha
    obtain ⟨hj, rfl⟩ := List.getElem?_eq_some.mp hb
    rcases Nat.lt_or_gt_of_ne hij with hlt | hgt
    · exact apart_disjoint _ _ (hpw i j hi hj hlt)
    · have := hpw j i hj hi hgt
      apply apart_disjoint
      unfold MeshSegment.Apart at this ⊢
      omega

/-- C5 at a sample file that reuses the name `A` and loads a material library after
a `usemtl` line. -/
theorem C5_segments_disjoint_witness :
    ∃ mesh, loadOBJ sampleWorld "models/a.obj" (some mixedFile) {} = some mesh ∧
      ∀ (i j : Nat) (a b : MeshSegment), i ≠ j →
        mesh.meshSegments[i]? = some a → mesh.meshSegments[j]? = some b →
        ¬ ∃ x : Int,
          (a.vertexBufferStartIndex ≤ x ∧
            x < a.vertexBufferStartIndex + a.vertexBufferDuration) ∧
          (b.vertexBufferStartIndex ≤ x ∧
            x < b.vertexBufferStartIndex + b.vertexBufferDuration) :=
  C5_segments_disjoint sampleWorld "models/a.obj" mixedFile {} (by decide)

/-- C6: only the first `mtllib` line of a geometry file takes effect. With
`mtllib a` the first such line and `mtllib b` any later one, deleting the later
line changes neither the final state of the scan (OpenGL state and loader calls
included) nor the mesh returned by `loadOBJ`; and when the file is well-formed the
material loader is called exactly once, with `a` resolved against the parent
directory of the geometry file. -/
theorem C6_first_mtllib_only {F Img : Type} (w : World Img) (path : String)
    (p q r : List (ObjLine F)) (a b : String) (gl : GLState Img)
    (hp : ∀ l ∈ p, l.isMtllib = false) :
    loadOBJ_state w path (some ((p ++ ObjLine.mtllib a :: q) ++ ObjLine.mtllib b :: r)) gl
      = loadOBJ_state w path (some ((p ++ ObjLine.mtllib a :: q) ++ r)) gl ∧
    loadOBJ w path (some ((p ++ ObjLine.mtllib a :: q) ++ ObjLine.mtllib b :: r)) gl
      = loadOBJ w path (some ((p ++ ObjLine.mtllib a :: q) ++ r)) gl ∧
    (WellFormed ((p ++ ObjLine.mtllib a :: q) ++ ObjLine.mtllib b :: r) →
      ∃ s, loadOBJ_state w path
          (some ((p ++ ObjLine.mtllib a :: q) ++ ObjLine.mtllib b :: r)) gl = some s ∧
        s.loaderCalls = [w.joinPath (w.parentPath path) a]) := by
  have hmem : ∃ l ∈ p ++ ObjLine.mtllib a :: q, l.isMtllib = true :=
    ⟨ObjLine.mtllib a, by simp, rfl⟩
  have heq := objScan_drop_mtllib w path (p ++ ObjLine.mtllib a :: q) r b
    ({ gl := gl } : LoadState F Img) (Or.inr hmem)
  refine ⟨heq, ?_, ?_⟩
  · simp only [loadOBJ, loadOBJ_state, heq]
  · intro hwf
    obtain ⟨s, hs⟩ := objScan_wf_some w path _ ({ gl := gl } : LoadState F Img) hwf
    refine ⟨s, hs, ?_⟩
    rw [List.append_assoc] at hs
    obtain ⟨sp, hsp, hrest⟩ := objScan_append_some w path p _ _ _ hs
    obtain ⟨fl, _, fc⟩ := objScan_frame_mtllib w path p _ sp hsp hp
    simp only [List.cons_append, objScan] at hrest
    have hl0 : sp.loadedMaterial = false := fl
    simp only [objStep, hl0] at hrest
    have := objScan_calls_kept w path _ _ s hrest rfl
    rw [this]
    simp [fc]

/-- C6 at a sample file with three `mtllib` lines, the second one deleted. -/
theorem C6_first_mtllib_only_witness :
    threeLibs = (libsHead ++ ObjLine.mtllib "a.mtl" :: libsMiddle) ++
      ObjLine.mtllib "b.mtl" :: libsTail ∧
    twoLibs = (libsHead ++ ObjLine.mtllib "a.mtl" :: libsMiddle) ++ libsTail ∧
    loadOBJ_state sampleWorld "models/a.obj" (some threeLibs) {}
      = loadOBJ_state sampleWorld "models/a.obj" (some twoLibs) {} ∧
    loadOBJ sampleWorld "models/a.obj" (some threeLibs) {}
      = loadOBJ sampleWorld "models/a.obj" (some twoLibs) {} ∧
    ∃ s, loadOBJ_state sampleWorld "models/a.obj" (some threeLibs) {} = some s ∧
      s.loaderCalls = ["models/a.mtl"] := by
  obtain ⟨h1, h2, h3⟩ := C6_first_mtllib_only sampleWorld "models/a.obj" libsHead
    libsMiddle libsTail "a.mtl" "b.mtl" {} (by decide)
  exact ⟨rfl, rfl, h1, h2, h3 (by decide)⟩

/-- C7 (evaluation of the scenario file): `loadOBJ` returns a 24-scalar buffer and
exactly one segment, with start 0 and duration 0, but the `name` of that segment
is the empty string and not `A`: the `usemtl` branch creates the entry through
`operator[]` and never assigns `name`. The `newmtl` branch does assign it: with
`mtllib a.mtl` before `usemtl wall`, the segment of `wall` is named `wall`. -/
theorem C7_scenario_segment_unnamed :
    (∃ seg, loadOBJ sampleWorld "models/a.obj" (some scenarioFile) {}
        = some { meshSegments := [seg],
                 vertices := [0, 0, 0, 0, 0, 0, 0, 1, 1, 0, 0, 1, 0, 0, 0, 1,
                              0, 1, 0, 0, 1, 0, 0, 1] } ∧
      seg.name = "" ∧ seg.name ≠ "A" ∧
      seg.vertexBufferStartIndex = 0 ∧ seg.vertexBufferDuration = 0) ∧
    (∃ s seg, loadOBJ_state sampleWorld "models/a.obj"
        (some (oneVertex ++ [.mtllib "a.mtl", .usemtl "wall", face1])) {} = some s ∧
      s.meshSegments.find "wall" = some seg ∧ seg.name = "wall") :=
  ⟨⟨{}, by decide, rfl, by decide, rfl, rfl⟩, ⟨_, _, rfl, rfl, rfl⟩⟩

/-- C10: the segment opened by the last `usemtl` line is never finalized. For a
well-formed geometry file in which no `usemtl` and no `mtllib` line follows the
line `usemtl N`, the scan ends with the same segment map, and `loadOBJ` returns
the same segment list, as for the file cut right after that line; the face lines
that follow change no start and no duration, and when `N` is used by no earlier
`usemtl` line its segment has duration 0. -/
theorem C10_last_segment_not_finalized {F Img : Type} (w : World Img) (path : String)
    (pre post : List (ObjLine F)) (N : String) (gl : GLState Img)
    (hwf : WellFormed ((pre ++ [ObjLine.usemtl N]) ++ post))
    (hpost : ∀ l ∈ post, l.isUsemtl = false ∧ l.isMtllib = false) :
    ∃ sFull sCut,
      loadOBJ_state w path (some ((pre ++ [ObjLine.usemtl N]) ++ post)) gl = some sFull ∧
      loadOBJ_state w path (some (pre ++ [ObjLine.usemtl N])) gl = some sCut ∧
      sFull.meshSegments = sCut.meshSegments ∧
      (loadOBJ w path (some ((pre ++ [ObjLine.usemtl N]) ++ post)) gl).map
          (fun m => m.meshSegments)
        = (loadOBJ w path (some (pre ++ [ObjLine.usemtl N])) gl).map
          (fun m => m.meshSegments) ∧
      (N ∉ usedNames pre →
        ∃ e, sFull.meshSegments.find N = some e ∧ e.vertexBufferDuration = 0) := by
  obtain ⟨sFull, hFull⟩ := objScan_wf_some w path
    ((pre ++ [ObjLine.usemtl N]) ++ post) ({ gl := gl } : LoadState F Img) hwf
  obtain ⟨sCut, hCut, hPost⟩ := objScan_append_some w path
    (pre ++ [ObjLine.usemtl N]) post _ _ hFull
  obtain ⟨sp, hsp, hstep⟩ := objScan_append_some w path pre [ObjLine.usemtl N] _ _ hCut
  have hstep1 : objStep w path sp (.usemtl N) = some sCut := by
    simpa [objScan] using hstep
  have hseg : sFull.meshSegments = sCut.meshSegments :=
    (objScan_frame_usemtl w path post sCut sFull hPost (fun l hl => (hpost l hl).1)).2.2
      (fun l hl => (hpost l hl).2)
  refine ⟨sFull, sCut, hFull, hCut, hseg, ?_, ?_⟩
  · simp only [loadOBJ, loadOBJ_state, hFull, hCut, Option.map_some', hseg]
  · intro hN
    have hu0 : UnusedClosed [] ({ gl := gl } : LoadState F Img) :=
      ⟨fun k e hk => by simp [SegmentMap.find] at hk, Or.inl rfl⟩
    have hu := objScan_unusedClosed w path pre [] _ sp hsp hu0
    simp only [List.nil_append] at hu
    obtain ⟨e, he, _, hdur⟩ := find_after_usemtl w path sp sCut N hstep1
    have hlast : sp.lastMaterialName = "" ∨ sp.lastMaterialName ≠ N := by
      rcases hu.2 with h0 | h0
      · exact Or.inl h0
      · exact Or.inr (fun hh => hN (hh ▸ h0))
    refine ⟨e, by rw [hseg]; exact he, ?_⟩
    rw [hdur hlast]
    cases hf : SegmentMap.find sp.meshSegments N with
    | none => rfl
    | some e0 => simpa using hu.1 N e0 hf hN

/-- C10 at a sample file: three face lines after the last line `usemtl B`. -/
theorem C10_last_segment_not_finalized_witness :
    ∃ sFull sCut e,
      loadOBJ_state sampleWorld "models/a.obj"
        (some (twoMaterials ++ [face1, face1, .other, face1])) {} = some sFull ∧
      loadOBJ_state sampleWorld "models/a.obj" (some twoMaterials) {} = some sCut ∧
      sFull.meshSegments = sCut.meshSegments ∧
      (loadOBJ sampleWorld "models/a.obj"
          (some (twoMaterials ++ [face1, face1, .other, face1])) {}).map
          (fun m => m.meshSegments)
        = (loadOBJ sampleWorld "models/a.obj" (some twoMaterials) {}).map
          (fun m => m.meshSegments) ∧
      sFull.meshSegments.find "B" = some e ∧ e.vertexBufferDuration = 0 := by
  obtain ⟨sFull, sCut, h1, h2, h3, h4, h5⟩ :=
    C10_last_segment_not_finalized sampleWorld "models/a.obj"
      (oneVertex ++ [.usemtl "A", face1]) [face1, face1, .other, face1] "B" {}
      (by decide) (by decide)
  obtain ⟨e, h6, h7⟩ := h5 (by decide)
  exact ⟨sFull, sCut, e, h1, h2, h3, h4, h6, h7⟩

/-! ## Properties of `loadMaterialsMTLLIB` -/

/-- C9: camera queries are idempotent, the floating-point functions being taken as
functions of their arguments. A second call of `getViewMatrix` returns the same
matrix as the first and leaves every field, the cached `front` included, as the
first call left it; the matrix returned does not depend on the stored `front`
(nor on the planes, the field of view or the aspect ratio), only on position,
yaw, pitch and up; `getProjectionMatrix` changes no field and returns the same
matrix on consecutive calls. -/
theorem C9_camera_queries_idempotent {F M : Type} (ops : FloatOps F M) (c : Camera F)
    (front : Vec3 F) (nearPlane farPlane FOV viewportAspectRatio : F) :
    (Camera.getViewMatrix ops (Camera.getViewMatrix ops c).2).1
      = (Camera.getViewMatrix ops c).1 ∧
    (Camera.getViewMatrix ops (Camera.getViewMatrix ops c).2).2
      = (Camera.getViewMatrix ops c).2 ∧
    (Camera.getViewMatrix ops { c with
        front := front, nearPlane := nearPlane, farPlane := farPlane, FOV := FOV,
        viewportAspectRatio := viewportAspectRatio }).1
      = (Camera.getViewMatrix ops c).1 ∧
    (Camera.getProjectionMatrix ops c).2 = c ∧
    (Camera.getProjectionMatrix ops (Camera.getProjectionMatrix ops c).2).1
      = (Camera.getProjectionMatrix ops c).1 :=
  ⟨rfl, rfl, rfl, rfl, rfl⟩

end ObjLoader
